import Mathlib

/-!
Verification of the airdrop batch-execution engine (`scripts/airdrop.py`).

This file gives a shallow embedding of the parts of `SolanaAirdropManager`
that the specification's testable claims are about: recipient parsing
(`load_recipients` / `_parse_recipient_row`), the token-account provisioning
status updates (`check_and_create_token_accounts`), the checkpoint store
(`save_progress` / `load_progress`), the pending working-set selection
(`get_pending_recipients`) and the resumable transfer executor
(`execute_token_transfers_with_resume` with `_execute_transfer_batch` and
`_execute_single_transfer`).

Modelling conventions:
* Python strings are `String`; statuses are the literal strings
  `"pending" | "success" | "failed" | "skipped"` exactly as in the source
  (the checkpoint restore path copies arbitrary strings from the file, so
  statuses are not forced into a four-element inductive).
* Python floats are IEEE binary64 values.  A binary64 value is represented
  exactly as an integer significand times a power of two (`F64`), and the
  two float operations the engine performs on amounts - parsing the decimal
  literal from the CSV (`float(...)`) and one multiplication by `10 ** d` -
  are modelled exactly: round to nearest, ties to even, at 53 significant
  bits, valid throughout the binary64 normal range (all token quantities
  are far inside it).  Everything is integer arithmetic, so every result
  is computable by `decide`.
* The remote RPC endpoint is an oracle (`ExecEnv`): the outcome of the j-th
  batch submission and of the k-th individual retry for recipient index i
  are boolean functions of (j) and (i, k).  Every transaction submission
  the engine performs is recorded in a `sent` log so that "no network call
  happens" and "recipient i is never submitted" are stateable.
* The checkpoint file is an `Option String` (absent / contents).  The JSON
  decoder is an explicit parameter `parse : String → Option ProgressData`
  (the source delegates to the external `json` library); `parse _ = none`
  models both a read error and a decode error, which the source catches in
  one `except` handler.  Parsed files are modelled at schema granularity:
  absent `phase` / `total_recipients` keys are `none` (`dict.get` returns
  `None`), absent counters default through `getD 0` (`dict.get(k, 0)`), an
  absent `recipients` key is the empty list.  Timestamps, pacing delays and
  log output are not modelled (wall-clock time has no bearing on a claim).
-/

/-- Status string a recipient starts with (`Recipient.status`, line 57). -/
def stPending : String := "pending"

/-- Terminal status written on a successful transfer. -/
def stSuccess : String := "success"

/-- Terminal status written after a failed batch and retry exhaustion. -/
def stFailed : String := "failed"

/-- Terminal status written by the provisioner for a missing pubkey. -/
def stSkipped : String := "skipped"

/-! ## Exact binary64 arithmetic on integers -/

/-- Number of binary digits of `n`, computed with an explicit fuel argument
so that the recursion is structural (kernel-reducible). -/
def natBitsAux : ℕ → ℕ → ℕ
  | 0, _ => 0
  | fuel + 1, n => if n = 0 then 0 else natBitsAux fuel (n / 2) + 1

/-- Number of binary digits of `n` (`0` has no digits); `natBits n = k`
means `2 ^ (k - 1) ≤ n < 2 ^ k` for positive `n`. -/
def natBits (n : ℕ) : ℕ := natBitsAux n n

/-- Round the exact quotient `a / b` to the nearest natural number, ties to
even: the IEEE-754 default rounding expressed as integer division. -/
def roundHalfEvenDiv (a b : ℕ) : ℕ :=
  let q := a / b
  let r := a % b
  if 2 * r < b then q
  else if b < 2 * r then q + 1
  else if q % 2 = 0 then q else q + 1

/-- A binary64 value represented exactly: the rational number `m * 2 ^ e`.
Results produced by the rounding functions below are normalised
(`2 ^ 52 ≤ |m| < 2 ^ 53` with `e` the exponent of one unit in the last
place), but the type itself does not require it. -/
structure F64 where
  m : ℤ
  e : ℤ
deriving Repr, DecidableEq, Inhabited

/-- Sign of an integer as a unit (`1` for nonnegative input). -/
def intSign (n : ℤ) : ℤ := if n < 0 then -1 else 1

/-- Nearest binary64 value of the positive rational `p / q` (ties to even):
locate the binade `2 ^ e ≤ p / q < 2 ^ (e + 1)`, then round `p / q` at
granularity `2 ^ (e - 52)`, carrying into the next binade when rounding
reaches `2 ^ 53`. -/
def roundPosRat (p q : ℕ) : F64 :=
  let c : ℤ := (natBits p : ℤ) - (natBits q : ℤ)
  let e : ℤ :=
    if 0 ≤ c then (if 2 ^ c.toNat * q ≤ p then c else c - 1)
    else (if q ≤ p * 2 ^ (-c).toNat then c else c - 1)
  let s : ℤ := 52 - e
  let m : ℕ :=
    if 0 ≤ s then roundHalfEvenDiv (p * 2 ^ s.toNat) q
    else roundHalfEvenDiv p (q * 2 ^ (-s).toNat)
  if m = 2 ^ 53 then ⟨2 ^ 52, e - 51⟩ else ⟨(m : ℤ), e - 52⟩

/-- The binary64 value denoted by the decimal literal `n / 10 ^ k`:
Python's `float(...)` applied to the exact decimal value of a CSV cell. -/
def F64.ofDecimal (n : ℤ) (k : ℕ) : F64 :=
  if n = 0 then ⟨0, 0⟩
  else
    let x := roundPosRat n.natAbs (10 ^ k)
    ⟨intSign n * x.m, x.e⟩

/-- Binary64 multiplication of `x` by the exact integer `10 ^ d`: the exact
product `|m| * 10 ^ d * 2 ^ e` is rounded back to 53 significant bits,
ties to even.  This is the Python expression
`sol_nema_tokens * (10 ** token_decimals)` (an int operand is converted
exactly; `10 ^ d` is exact in binary64 for every configured `d`). -/
def F64.mulPow10 (x : F64) (d : ℕ) : F64 :=
  if x.m = 0 then ⟨0, 0⟩
  else
    let p : ℕ := x.m.natAbs * 10 ^ d
    let flp : ℤ := (natBits p : ℤ) - 1
    let s : ℤ := flp - 52
    if 0 < s then
      let m := roundHalfEvenDiv p (2 ^ s.toNat)
      if m = 2 ^ 53 then ⟨intSign x.m * 2 ^ 52, x.e + s + 1⟩
      else ⟨intSign x.m * (m : ℤ), x.e + s⟩
    else
      ⟨intSign x.m * (p * 2 ^ (-s).toNat : ℕ), x.e + s⟩

/-- Truncation toward zero of a binary64 value: Python's `int()`. -/
def F64.truncInt (x : F64) : ℤ :=
  if 0 ≤ x.e then x.m * 2 ^ x.e.toNat
  else intSign x.m * (x.m.natAbs / 2 ^ (-x.e).toNat : ℕ)

/-- Rounding to the nearest integer (ties to even) of a binary64 value:
what Python's `round()` would give.  Used only to witness that the source
truncates rather than rounds. -/
def F64.roundInt (x : F64) : ℤ :=
  if 0 ≤ x.e then x.m * 2 ^ x.e.toNat
  else intSign x.m * (roundHalfEvenDiv x.m.natAbs (2 ^ (-x.e).toNat) : ℕ)

/-- Raw-unit conversion as the source performs it (airdrop.py lines 442 and
490): `int(recipient.sol_nema_tokens * (10 ** self.config.token_decimals))`
- the stored binary64 amount is multiplied by `10 ^ d` in binary64
arithmetic and the binary64 product is truncated toward zero. -/
def token_amount_raw (tokens : F64) (d : ℕ) : ℤ :=
  (tokens.mulPow10 d).truncInt

/-- Raw-unit conversion as the specification words it: "quantity =
allocationAmount × 10^decimals, truncated toward zero", applied to the
exact decimal value `n / 10 ^ k` written in the CSV.  This is the second,
spec-side definition, to be compared with `token_amount_raw`, the one
translated from the source. -/
def specRawUnits (n : ℤ) (k d : ℕ) : ℤ :=
  intSign n * (n.natAbs * 10 ^ d / 10 ^ k : ℕ)

/-! ## Data model -/

/-- Embedding of the `AirdropConfig` dataclass, restricted to the fields the
state machine reads (`rpc_url`, the keypair, `csv_file_path`, the pacing
delays and `log_level` only parameterise I/O endpoints and sleep calls). -/
structure AirdropConfig where
  phase : ℤ
  dry_run : Bool
  batch_size : ℕ
  max_retries : ℕ
  token_decimals : ℕ
  token_mint : String
deriving Repr, DecidableEq

/-- Embedding of the `Recipient` dataclass.  A `Pubkey` object is
represented by its address string; `sol_nema_tokens` is the binary64 value
produced by `float(row[phase_column])`. -/
structure Recipient where
  sol_wallet : String
  worm_balance : ℤ
  sol_nema_tokens : F64
  pubkey : Option String := none
  token_account : Option String := none
  status : String := stPending
deriving Repr, DecidableEq, Inhabited

/-- One CSV row as `_parse_recipient_row` sees it.  `worm_balance = none`
models an `int(...)` failure; `phase_tokens p` is the decimal literal in
the `phase{p}_tokens` column as (digits, power of ten), with `none` for a
missing column or an unparsable value (all of which the source turns into
`return None` via its logged early returns or its `except` handler). -/
structure Row where
  sol_wallet : String
  worm_balance : Option ℤ
  phase_tokens : ℤ → Option (ℤ × ℕ)

/-- A single `transfer_checked` instruction: destination token account and
raw amount, tagged with the index of the recipient it pays (the tag is
bookkeeping for the proofs; the on-wire instruction determines it via the
destination account). -/
structure TransferIx where
  ridx : ℕ
  dest : String
  amount : ℤ
deriving Repr, DecidableEq

/-- A transaction submission recorded in the network log: one grouped batch
submission, or one individual retry attempt (`attempt` is 0-based). -/
inductive Tx where
  | batch (ixs : List TransferIx)
  | single (ridx : ℕ) (attempt : ℕ) (ix : TransferIx)
deriving Repr, DecidableEq

/-- The mutable state of a `SolanaAirdropManager` run, plus two observer
logs: `sent` records every transaction submission and `saves` records every
checkpoint write (contents), so that frame claims ("no network call", "no
checkpoint write") are stateable. -/
structure ExecState where
  recipients : List Recipient
  successful_transfers : ℤ
  failed_transfers : ℤ
  skipped_transfers : ℤ
  progress_file : Option String
  sent : List Tx
  saves : List String
deriving Repr, DecidableEq

/-- Outcome oracle for the remote ledger: `batchOk j` is whether the j-th
grouped batch submission succeeds (`result.value` truthy; a raised
exception and a falsy result take the same failure branch), and
`singleOk i k` is whether the k-th individual attempt for recipient index
`i` succeeds. -/
structure ExecEnv where
  batchOk : ℕ → Bool
  singleOk : ℕ → ℕ → Bool

/-! ## Recipient Validator -/

/-- Embedding of `_parse_recipient_row` (lines 142-179), parameterised by
the external address validator (`Pubkey.from_string` of the solders
library): read `sol_wallet` and `worm_balance`, look up the phase column,
convert its decimal value with `float`, validate the wallet address, then
reject non-positive amounts; every failure returns `None` after logging.
The returned recipient stores the parsed pubkey and starts `pending`. -/
def _parse_recipient_row (validAddr : String → Bool) (phase : ℤ) (row : Row) :
    Option Recipient :=
  match row.worm_balance with
  | none => none
  | some wb =>
    match row.phase_tokens phase with
    | none => none
    | some (n, k) =>
      if validAddr row.sol_wallet then
        let t := F64.ofDecimal n k
        if t.m ≤ 0 then none
        else some { sol_wallet := row.sol_wallet, worm_balance := wb,
                    sol_nema_tokens := t, pubkey := some row.sol_wallet }
      else none

/-- Embedding of `load_recipients` (lines 114-140): parse each row, keep
the successes (a row-level exception is logged and the loop continues),
store them on the manager and succeed iff at least one recipient was
loaded. -/
def load_recipients (validAddr : String → Bool) (phase : ℤ) (rows : List Row)
    (st : ExecState) : ExecState × Bool :=
  let recs := rows.filterMap (_parse_recipient_row validAddr phase)
  ({ st with recipients := recs }, decide (0 < recs.length))

/-! ## Account Provisioner (recipient-state part) -/

/-- Deterministic associated-token-account derivation (the external
`get_associated_token_address`): an injective pairing of owner and mint. -/
def get_associated_token_address (owner mint : String) : String :=
  "ata(" ++ owner ++ "," ++ mint ++ ")"

/-- Recipient-state part of `check_and_create_token_accounts` (lines
238-283): a recipient with no pubkey is marked `skipped` and counted; every
other recipient gets its derived associated token account stored.  The
network part of the method (existence queries and account-creation
transactions) touches neither recipient records nor counters and only
determines the method's boolean result, so it is outside this model. -/
def check_and_create_token_accounts (cfg : AirdropConfig) (st : ExecState) :
    ExecState :=
  let provision : Recipient → Recipient := fun r =>
    match r.pubkey with
    | none => { r with status := stSkipped }
    | some pk =>
      { r with
        token_account := some (get_associated_token_address pk cfg.token_mint) }
  { st with
    recipients := st.recipients.map provision,
    skipped_transfers := st.skipped_transfers +
      (st.recipients.countP (fun r => r.pubkey.isNone) : ℤ) }

/-! ## Checkpoint Store -/

/-- One entry of the checkpoint's `recipients` list, as the dict
comprehension of line 614 consumes it: reading `r['sol_wallet']` or
`r['status']` from an entry that is not a dict carrying that key raises,
modelled by an absent field. -/
structure CkEntry where
  sol_wallet : Option String
  status : Option String
deriving Repr, DecidableEq

/-- Schema of a decoded checkpoint file, as `load_progress` consumes it:
`dict.get` without default models as `Option`, the three counters default
to `0` through `getD`, a missing `recipients` key is the empty list, and
each entry carries its possibly-absent `sol_wallet` and `status` keys. -/
structure ProgressData where
  phase : Option ℤ
  total_recipients : Option ℤ
  successful_transfers : Option ℤ
  failed_transfers : Option ℤ
  skipped_transfers : Option ℤ
  recipients : List CkEntry
deriving Repr, DecidableEq

/-- The dict comprehension of line 614 as a fallible pair list: it raises
(here: yields `none`) as soon as one entry lacks a key, and otherwise
collects every (`sol_wallet`, `status`) pair in order. -/
def statusPairs : List CkEntry → Option (List (String × String))
  | [] => some []
  | e :: es =>
    match e.sol_wallet, e.status with
    | some w, some s => (statusPairs es).map (fun t => (w, s) :: t)
    | _, _ => none

/-- Last-wins association lookup: the dict comprehension
`{r['sol_wallet']: r['status'] for r in ...}` keeps the last entry for a
duplicated wallet. -/
def lookupLast (l : List (String × String)) (key : String) : Option String :=
  (l.reverse.find? (fun p => p.1 == key)).map (fun p => p.2)

/-- Status restoration for one recipient (lines 616-618): a recipient whose
wallet appears in the checkpoint's status map takes the stored status,
every other recipient is left as it is. -/
def restoreStatus (m : List (String × String)) (r : Recipient) : Recipient :=
  match lookupLast m r.sol_wallet with
  | some s => { r with status := s }
  | none => r

/-- Embedding of `load_progress` (lines 589-627): no file, a failed decode,
a phase mismatch or a recipient-count mismatch each return `False` before
any mutation; past those checks the three counters are reassigned first
(lines 609-611, missing keys default to 0), then the status-map
comprehension of line 614 runs: if it raises, the exception handler
returns `False` with the counters already reassigned and no status
touched; otherwise each current recipient whose wallet appears in the
file gets the stored status and the load returns `True`. -/
def load_progress (parse : String → Option ProgressData) (cfg : AirdropConfig)
    (st : ExecState) : ExecState × Bool :=
  match st.progress_file with
  | none => (st, false)
  | some content =>
    match parse content with
    | none => (st, false)
    | some d =>
      if d.phase ≠ some cfg.phase then (st, false)
      else if d.total_recipients ≠ some (st.recipients.length : ℤ) then
        (st, false)
      else
        let st1 := { st with
            successful_transfers := d.successful_transfers.getD 0,
            failed_transfers := d.failed_transfers.getD 0,
            skipped_transfers := d.skipped_transfers.getD 0 }
        match statusPairs d.recipients with
        | none => (st1, false)
        | some m =>
          ({ st1 with recipients := st.recipients.map (restoreStatus m) },
            true)

/-- Rendering of one recipient entry of the progress snapshot (the numeric
rendering of the binary64 amount is abstracted as significand and
exponent; only content identity matters to the claims). -/
def recipientLine (r : Recipient) : String :=
  "\x7b\"sol_wallet\": \"" ++ r.sol_wallet ++ "\", \"sol_nema_tokens\": " ++
    toString r.sol_nema_tokens.m ++ "p" ++ toString r.sol_nema_tokens.e ++
    ", \"status\": \"" ++ r.status ++ "\"\x7d"

/-- Rendering of the full progress snapshot written by `save_progress`
(lines 564-579): phase, total recipient count, the three counters and one
entry per recipient. -/
def serializeProgress (cfg : AirdropConfig) (st : ExecState) : String :=
  "\x7b\"phase\": " ++ toString cfg.phase ++
    ", \"total_recipients\": " ++ toString st.recipients.length ++
    ", \"successful_transfers\": " ++ toString st.successful_transfers ++
    ", \"failed_transfers\": " ++ toString st.failed_transfers ++
    ", \"skipped_transfers\": " ++ toString st.skipped_transfers ++
    ", \"recipients\": [" ++
    String.intercalate ", " (st.recipients.map recipientLine) ++ "]\x7d"

/-- Embedding of `save_progress` (lines 561-587): serialize the full
snapshot and write it to the progress file, recording the write. -/
def save_progress (cfg : AirdropConfig) (st : ExecState) : ExecState :=
  let content := serializeProgress cfg st
  { st with progress_file := some content, saves := st.saves ++ [content] }

/-- On-disk states visible while `save_progress` runs, at character
granularity: the source opens the file with mode `w` (truncating it
immediately) and then streams `json.dump` output into it, so an observer -
or a run interrupted mid-write - can see every prefix of the new content,
starting with the empty file. -/
def save_progress_writeStates (cfg : AirdropConfig) (st : ExecState) :
    List (Option (List Char)) :=
  let content := (serializeProgress cfg st).data
  (List.range (content.length + 1)).map (fun k => some (content.take k))


/-! ## Transfer Executor -/

/-- Embedding of `get_pending_recipients` (lines 629-631): the recipients
whose status is currently `pending`. -/
def get_pending_recipients (rs : List Recipient) : List Recipient :=
  rs.filter (fun r => r.status == stPending)

/-- Positions of the pending recipients.  The source iterates over the
shared `Recipient` objects returned by `get_pending_recipients`; here the
same objects are addressed by their index in `recipients`. -/
def pendingIndices (rs : List Recipient) : List ℕ :=
  ((rs.enum.filter (fun p => p.2.status == stPending)).map Prod.fst)

/-- Set the status of the recipient at index `i` (out-of-range indices
leave the list unchanged; they never occur in the engine). -/
def updateStatus (rs : List Recipient) (i : ℕ) (s : String) : List Recipient :=
  match rs.get? i with
  | none => rs
  | some r => rs.set i { r with status := s }

/-- Structural worker for `chunkList`; the fuel argument bounds the number
of slices and makes the recursion kernel-reducible. -/
def chunkListAux (n : ℕ) : ℕ → List ℕ → List (List ℕ)
  | 0, _ => []
  | _, [] => []
  | fuel + 1, x :: xs => (x :: xs.take (n - 1)) :: chunkListAux n fuel (xs.drop (n - 1))

/-- Contiguous batches of at most `n` elements, in order: the slices
`pending_recipients[i:i + batch_size]` of the executor's loop. -/
def chunkList (n : ℕ) (l : List ℕ) : List (List ℕ) :=
  chunkListAux n l.length l

/-- Set the status of every listed index in order (the `for recipient in
batch: recipient.status = ...` loops, addressed by index). -/
def setAllStatus (s : String) (rs : List Recipient) (idxs : List ℕ) :
    List Recipient :=
  idxs.foldl (fun rs i => updateStatus rs i s) rs

/-- The `transfer_checked` instruction for recipient `i`: destination is
its associated token account, amount is the truncated binary64 product. -/
def buildTransferIx (cfg : AirdropConfig) (i : ℕ) (r : Recipient)
    (ta : String) : TransferIx :=
  ⟨i, ta, token_amount_raw r.sol_nema_tokens cfg.token_decimals⟩

/-- Instruction list of one grouped batch transaction (lines 435-455): one
transfer per batch member, silently dropping members with a missing pubkey
or token account (lines 437-439). -/
def batchIxs (cfg : AirdropConfig) (rs : List Recipient) (chunk : List ℕ) :
    List TransferIx :=
  chunk.filterMap (fun i =>
    match rs.get? i with
    | none => none
    | some r =>
      match r.pubkey, r.token_account with
      | some _, some ta => some (buildTransferIx cfg i r ta)
      | _, _ => none)

/-- Embedding of `_execute_transfer_batch` (lines 429-478): build and
submit one grouped transaction; on success mark every member `success` and
return `True`, otherwise (falsy result or exception) return `False` with
statuses untouched. -/
def _execute_transfer_batch (cfg : AirdropConfig) (ok : Bool) (st : ExecState)
    (chunk : List ℕ) : ExecState × Bool :=
  let st1 := { st with sent := st.sent ++ [Tx.batch (batchIxs cfg st.recipients chunk)] }
  if ok then
    ({ st1 with recipients := setAllStatus stSuccess st1.recipients chunk }, true)
  else (st1, false)

/-- Whether the recipient at index `i` passes the missing-field guard of
`_execute_single_transfer` (lines 483-485). -/
def singleFieldsOk (rs : List Recipient) (i : ℕ) : Bool :=
  match rs.get? i with
  | some r => r.pubkey.isSome && r.token_account.isSome
  | none => false

/-- Whether some attempt among the first `max_retries` succeeds for
recipient index `i`. -/
def singleSucceeds (cfg : AirdropConfig) (env : ExecEnv) (i : ℕ) : Bool :=
  ((List.range cfg.max_retries).find? (fun k => env.singleOk i k)).isSome

/-- Number of attempts the retry loop performs for recipient index `i`:
it stops at the first success and otherwise exhausts `max_retries`. -/
def singleAttemptCount (cfg : AirdropConfig) (env : ExecEnv) (i : ℕ) : ℕ :=
  match (List.range cfg.max_retries).find? (fun k => env.singleOk i k) with
  | some k => k + 1
  | none => cfg.max_retries

/-- Transactions submitted by one `_execute_single_transfer` call: one per
attempt, none when the missing-field guard fires. -/
def newSingleTxs (cfg : AirdropConfig) (env : ExecEnv) (rs : List Recipient)
    (i : ℕ) : List Tx :=
  match rs.get? i with
  | none => []
  | some r =>
    match r.pubkey, r.token_account with
    | some _, some ta =>
      (List.range (singleAttemptCount cfg env i)).map
        (fun a => Tx.single i a (buildTransferIx cfg i r ta))
    | _, _ => []

/-- Embedding of `_execute_single_transfer` (lines 480-529): a missing
pubkey or token account fails immediately with no attempt; otherwise up to
`max_retries` attempts are submitted, stopping at the first success. -/
def _execute_single_transfer (cfg : AirdropConfig) (env : ExecEnv)
    (st : ExecState) (i : ℕ) : ExecState × Bool :=
  match st.recipients.get? i with
  | none => (st, false)
  | some r =>
    match r.pubkey, r.token_account with
    | some _, some ta =>
      let ix := buildTransferIx cfg i r ta
      match (List.range cfg.max_retries).find? (fun k => env.singleOk i k) with
      | some k =>
        ({ st with
            sent := st.sent ++ (List.range (k + 1)).map
              (fun a => Tx.single i a ix) }, true)
      | none =>
        ({ st with
            sent := st.sent ++ (List.range cfg.max_retries).map
              (fun a => Tx.single i a ix) }, false)
    | _, _ => (st, false)

/-- One step of the per-item fallback loop (lines 677-683): attempt the
individual transfer, then mark and count the recipient `success` or
`failed`. -/
def fallbackStep (cfg : AirdropConfig) (env : ExecEnv) (s : ExecState)
    (i : ℕ) : ExecState :=
  let one := _execute_single_transfer cfg env s i
  if one.2 then
    { one.1 with
      successful_transfers := one.1.successful_transfers + 1,
      recipients := updateStatus one.1.recipients i stSuccess }
  else
    { one.1 with
      failed_transfers := one.1.failed_transfers + 1,
      recipients := updateStatus one.1.recipients i stFailed }

/-- The per-item fallback loop over a failed batch. -/
def fallbackLoop (cfg : AirdropConfig) (env : ExecEnv) (st : ExecState)
    (chunk : List ℕ) : ExecState :=
  chunk.foldl (fallbackStep cfg env) st

/-- One iteration of the executor's batch loop (lines 665-686): submit the
grouped transaction; on success mark the whole batch `success` and add its
size to the success counter; on failure fall back to individual transfers,
marking each member `success` or `failed` and counting it; then persist
the full snapshot with `save_progress`. -/
def processChunk (cfg : AirdropConfig) (env : ExecEnv) (j : ℕ)
    (st : ExecState) (chunk : List ℕ) : ExecState :=
  let step := _execute_transfer_batch cfg (env.batchOk j) st chunk
  let st2 :=
    if step.2 then
      { step.1 with
        successful_transfers := step.1.successful_transfers + chunk.length,
        recipients := setAllStatus stSuccess step.1.recipients chunk }
    else fallbackLoop cfg env step.1 chunk
  save_progress cfg st2

/-- The executor's batch loop: process the chunks sequentially, numbering
them from `j`. -/
def processBatches (cfg : AirdropConfig) (env : ExecEnv) :
    ℕ → ExecState → List (List ℕ) → ExecState
  | _, st, [] => st
  | j, st, c :: cs => processBatches cfg env (j + 1) (processChunk cfg env j st c) cs

/-- Dry-run marking (lines 649-651): set every listed recipient to
`success`. -/
def markDry (rs : List Recipient) (idxs : List ℕ) : List Recipient :=
  setAllStatus stSuccess rs idxs

/-- Embedding of `execute_token_transfers_with_resume` (lines 633-695):
restore any usable checkpoint, select the pending working set, succeed
immediately if it is empty; in dry-run mode mark every pending recipient
`success` and count them with no network call and no checkpoint write;
otherwise process the working set in batches of `batch_size` and report
success iff the success counter is positive. -/
def execute_token_transfers_with_resume (cfg : AirdropConfig) (env : ExecEnv)
    (parse : String → Option ProgressData) (st : ExecState) :
    ExecState × Bool :=
  let st1 := (load_progress parse cfg st).1
  let pend := pendingIndices st1.recipients
  if pend.isEmpty then (st1, true)
  else if cfg.dry_run then
    ({ st1 with
        recipients := markDry st1.recipients pend,
        successful_transfers := st1.successful_transfers + (pend.length : ℤ) },
      true)
  else
    let st2 := processBatches cfg env 0 st1 (chunkList cfg.batch_size pend)
    (st2, decide ((0 : ℤ) < st2.successful_transfers))

/-! ## Observers used by the statements -/

/-- Recipient indices a recorded transaction pays. -/
def txTargets : Tx → List ℕ
  | Tx.batch ixs => ixs.map (fun ix => ix.ridx)
  | Tx.single i _ _ => [i]

/-- Number of recipients currently carrying status `s`. -/
def countStatus (s : String) (rs : List Recipient) : ℕ :=
  rs.countP (fun r => r.status == s)

/-- Terminal status the per-item fallback gives recipient index `i`:
`success` iff the guard passes and some attempt succeeds. -/
def fallbackOutcome (cfg : AirdropConfig) (env : ExecEnv)
    (rs : List Recipient) (i : ℕ) : String :=
  if singleFieldsOk rs i && singleSucceeds cfg env i then stSuccess
  else stFailed

/-- Terminal status batch `j` gives its member `i`: `success` for a
successful grouped submission, otherwise the fallback outcome. -/
def chunkOutcome (cfg : AirdropConfig) (env : ExecEnv) (j : ℕ)
    (rs : List Recipient) (i : ℕ) : String :=
  if env.batchOk j then stSuccess else fallbackOutcome cfg env rs i

/-- View of a recipient without its status: everything the transfer
instructions and guards depend on. -/
def recipCore (r : Recipient) : String × ℤ × F64 × Option String × Option String :=
  (r.sol_wallet, r.worm_balance, r.sol_nema_tokens, r.pubkey, r.token_account)

/-! ## Lemmas: status updates -/

theorem length_updateStatus (rs : List Recipient) (i : ℕ) (s : String) :
    (updateStatus rs i s).length = rs.length := by
  unfold updateStatus
  cases h : rs.get? i with
  | none => rfl
  | some r => simp

theorem get?_updateStatus_ne (rs : List Recipient) (i j : ℕ) (s : String)
    (h : i ≠ j) : (updateStatus rs i s).get? j = rs.get? j := by
  unfold updateStatus
  cases hg : rs.get? i with
  | none => rfl
  | some r => exact List.get?_set_ne _ _ h

theorem get?_updateStatus_self (rs : List Recipient) (i : ℕ) (s : String) :
    (updateStatus rs i s).get? i
      = (rs.get? i).map (fun r => { r with status := s }) := by
  unfold updateStatus
  cases hg : rs.get? i with
  | none => rw [hg]; rfl
  | some r => rw [List.get?_set_eq, hg]; rfl

theorem setAllStatus_cons (s : String) (rs : List Recipient) (i : ℕ)
    (idxs : List ℕ) :
    setAllStatus s rs (i :: idxs) = setAllStatus s (updateStatus rs i s) idxs :=
  rfl

theorem length_setAllStatus (s : String) (idxs : List ℕ) :
    ∀ rs, (setAllStatus s rs idxs).length = rs.length := by
  induction idxs with
  | nil => intro rs; rfl
  | cons i t ih => intro rs; rw [setAllStatus_cons, ih, length_updateStatus]

theorem get?_setAllStatus_not_mem (s : String) (idxs : List ℕ) :
    ∀ rs j, j ∉ idxs → (setAllStatus s rs idxs).get? j = rs.get? j := by
  induction idxs with
  | nil => intro rs j _; rfl
  | cons i t ih =>
    intro rs j hj
    rw [setAllStatus_cons, ih _ _ (fun h => hj (List.mem_cons_of_mem _ h)),
      get?_updateStatus_ne _ _ _ _
        (fun h => hj (by rw [← h]; exact List.mem_cons_self _ _))]

theorem get?_setAllStatus_mem (s : String) (idxs : List ℕ) :
    ∀ rs j, j ∈ idxs →
      (setAllStatus s rs idxs).get? j
        = (rs.get? j).map (fun r => { r with status := s }) := by
  induction idxs with
  | nil => intro rs j h; cases h
  | cons i t ih =>
    intro rs j hj
    rw [setAllStatus_cons]
    by_cases hjt : j ∈ t
    · rw [ih _ _ hjt]
      by_cases hji : i = j
      · subst hji
        rw [get?_updateStatus_self]
        cases rs.get? i <;> rfl
      · rw [get?_updateStatus_ne _ _ _ _ hji]
    · have hji : j = i := by
        cases List.mem_cons.mp hj with
        | inl h => exact h
        | inr h => exact absurd h hjt
      subst hji
      rw [get?_setAllStatus_not_mem s t _ _ hjt, get?_updateStatus_self]


/-! ## Lemmas: the pending working set -/

theorem mem_pendingIndices {rs : List Recipient} {i : ℕ} :
    i ∈ pendingIndices rs
      ↔ ∃ r, rs.get? i = some r ∧ r.status = stPending := by
  unfold pendingIndices
  constructor
  · intro h
    obtain ⟨⟨a, b⟩, hp, hpi⟩ := List.mem_map.mp h
    obtain ⟨hpe, hps⟩ := List.mem_filter.mp hp
    have ha : a = i := hpi
    subst ha
    refine ⟨b, ?_, beq_iff_eq.mp hps⟩
    rw [List.get?_eq_getElem?]
    exact List.mk_mem_enum_iff_getElem?.mp hpe
  · rintro ⟨r, hg, hs⟩
    refine List.mem_map.mpr ⟨(i, r), List.mem_filter.mpr ⟨?_, ?_⟩, rfl⟩
    · exact List.mk_mem_enum_iff_getElem?.mpr
        (by rw [← List.get?_eq_getElem?]; exact hg)
    · exact beq_iff_eq.mpr hs

theorem nodup_pendingIndices (rs : List Recipient) :
    (pendingIndices rs).Nodup := by
  unfold pendingIndices
  have hsub : List.Sublist
      ((rs.enum.filter (fun p => p.2.status == stPending)).map Prod.fst)
      (rs.enum.map Prod.fst) :=
    (List.filter_sublist _).map _
  exact hsub.nodup (List.nodup_enum_map_fst rs)

theorem length_pendingIndices (rs : List Recipient) :
    (pendingIndices rs).length = countStatus stPending rs := by
  unfold pendingIndices countStatus
  rw [List.length_map, ← List.countP_eq_length_filter]
  have h : rs.countP (fun r => r.status == stPending)
      = (rs.enum.map Prod.snd).countP (fun r => r.status == stPending) := by
    rw [List.enum_map_snd]
  rw [h, List.countP_map]
  rfl

theorem pendingIndices_lt_length {rs : List Recipient} {i : ℕ}
    (h : i ∈ pendingIndices rs) : i < rs.length := by
  obtain ⟨r, hg, _⟩ := mem_pendingIndices.mp h
  exact (List.get?_eq_some.mp hg).1

/-! ## Lemmas: batching -/

theorem chunkListAux_flatten (n : ℕ) :
    ∀ (fuel : ℕ) (l : List ℕ), l.length ≤ fuel →
      (chunkListAux n fuel l).flatten = l := by
  intro fuel
  induction fuel with
  | zero =>
    intro l hl
    rw [Nat.le_zero] at hl
    rw [List.length_eq_zero.mp hl]
    rfl
  | succ f ih =>
    intro l hl
    cases l with
    | nil => rfl
    | cons x xs =>
      rw [chunkListAux, List.flatten_cons,
        ih _ (by
          have hdrop := List.length_drop (n - 1) xs
          have : xs.length < f + 1 := Nat.lt_of_lt_of_le (by simp) hl
          omega),
        List.cons_append, List.take_append_drop]

theorem chunkList_flatten (n : ℕ) (l : List ℕ) :
    (chunkList n l).flatten = l :=
  chunkListAux_flatten n l.length l (Nat.le_refl _)

theorem mem_of_mem_chunkList {n : ℕ} {l : List ℕ} {c : List ℕ} {x : ℕ}
    (hc : c ∈ chunkList n l) (hx : x ∈ c) : x ∈ l := by
  rw [← chunkList_flatten n l]
  exact List.mem_flatten.mpr ⟨c, hc, hx⟩

/-! ## Lemmas: status-only mutation preserves every other field -/

theorem recipCore_updateStatus (rs : List Recipient) (i : ℕ) (s : String)
    (j : ℕ) :
    ((updateStatus rs i s).get? j).map recipCore
      = (rs.get? j).map recipCore := by
  by_cases h : i = j
  · subst h
    rw [get?_updateStatus_self]
    cases rs.get? i <;> rfl
  · rw [get?_updateStatus_ne _ _ _ _ h]

theorem get?_core_cases {rs rs' : List Recipient}
    (h : ∀ j, ((rs'.get? j).map recipCore) = ((rs.get? j).map recipCore))
    (i : ℕ) :
    (rs'.get? i = none ∧ rs.get? i = none)
    ∨ ∃ r' r, rs'.get? i = some r' ∧ rs.get? i = some r
        ∧ recipCore r' = recipCore r := by
  have hi := h i
  cases hg' : rs'.get? i with
  | none =>
    rw [hg'] at hi
    cases hg : rs.get? i with
    | none => exact Or.inl ⟨rfl, rfl⟩
    | some r => rw [hg] at hi; exact absurd hi (by simp)
  | some r' =>
    rw [hg'] at hi
    cases hg : rs.get? i with
    | none => rw [hg] at hi; exact absurd hi (by simp)
    | some r =>
      rw [hg] at hi
      exact Or.inr ⟨r', r, rfl, rfl, by simpa using hi⟩

theorem recipCore_fields {r' r : Recipient} (h : recipCore r' = recipCore r) :
    r'.sol_wallet = r.sol_wallet ∧ r'.worm_balance = r.worm_balance
      ∧ r'.sol_nema_tokens = r.sol_nema_tokens ∧ r'.pubkey = r.pubkey
      ∧ r'.token_account = r.token_account := by
  unfold recipCore at h
  simpa [Prod.ext_iff] using h

theorem singleFieldsOk_congr {rs rs' : List Recipient}
    (h : ∀ j, ((rs'.get? j).map recipCore) = ((rs.get? j).map recipCore))
    (i : ℕ) : singleFieldsOk rs' i = singleFieldsOk rs i := by
  unfold singleFieldsOk
  rcases get?_core_cases h i with ⟨h1, h2⟩ | ⟨r', r, h1, h2, hc⟩
  · rw [h1, h2]
  · rw [h1, h2]
    obtain ⟨-, -, -, hp, ht⟩ := recipCore_fields hc
    dsimp only
    rw [hp, ht]

theorem newSingleTxs_congr (cfg : AirdropConfig) (env : ExecEnv)
    {rs rs' : List Recipient}
    (h : ∀ j, ((rs'.get? j).map recipCore) = ((rs.get? j).map recipCore))
    (i : ℕ) : newSingleTxs cfg env rs' i = newSingleTxs cfg env rs i := by
  unfold newSingleTxs
  rcases get?_core_cases h i with ⟨h1, h2⟩ | ⟨r', r, h1, h2, hc⟩
  · rw [h1, h2]
  · rw [h1, h2]
    obtain ⟨-, -, htok, hp, ht⟩ := recipCore_fields hc
    dsimp only
    rw [hp, ht]
    cases r.pubkey <;> cases r.token_account <;>
      simp [buildTransferIx, htok]

theorem fallbackOutcome_congr (cfg : AirdropConfig) (env : ExecEnv)
    {rs rs' : List Recipient}
    (h : ∀ j, ((rs'.get? j).map recipCore) = ((rs.get? j).map recipCore))
    (i : ℕ) : fallbackOutcome cfg env rs' i = fallbackOutcome cfg env rs i := by
  unfold fallbackOutcome
  rw [singleFieldsOk_congr h]

/-! ## Lemmas: the individual-transfer fallback -/

theorem _execute_single_transfer_eq (cfg : AirdropConfig) (env : ExecEnv)
    (s : ExecState) (i : ℕ) :
    _execute_single_transfer cfg env s i
      = ({ s with sent := s.sent ++ newSingleTxs cfg env s.recipients i },
          singleFieldsOk s.recipients i && singleSucceeds cfg env i) := by
  unfold _execute_single_transfer newSingleTxs singleFieldsOk singleSucceeds
    singleAttemptCount
  cases hg : s.recipients.get? i with
  | none => simp
  | some r =>
    cases hpk : r.pubkey with
    | none => simp [hpk]
    | some pk =>
      cases hta : r.token_account with
      | none => simp [hpk, hta]
      | some ta =>
        cases hk : (List.range cfg.max_retries).find? (fun k => env.singleOk i k) with
        | none => simp [hpk, hta, hk]
        | some k => simp [hpk, hta, hk]

theorem fallbackStep_eq (cfg : AirdropConfig) (env : ExecEnv) (s : ExecState)
    (i : ℕ) :
    fallbackStep cfg env s i =
      if (singleFieldsOk s.recipients i && singleSucceeds cfg env i) = true then
        { s with
          successful_transfers := s.successful_transfers + 1,
          recipients := updateStatus s.recipients i stSuccess,
          sent := s.sent ++ newSingleTxs cfg env s.recipients i }
      else
        { s with
          failed_transfers := s.failed_transfers + 1,
          recipients := updateStatus s.recipients i stFailed,
          sent := s.sent ++ newSingleTxs cfg env s.recipients i } := by
  unfold fallbackStep
  rw [_execute_single_transfer_eq]

theorem updateStatus_cons_zero (a : Recipient) (t : List Recipient)
    (s : String) :
    updateStatus (a :: t) 0 s = { a with status := s } :: t := rfl

theorem updateStatus_cons_succ (a : Recipient) (t : List Recipient) (n : ℕ)
    (s : String) :
    updateStatus (a :: t) (n + 1) s = a :: updateStatus t n s := by
  unfold updateStatus
  cases h : t.get? n with
  | none => rw [show (a :: t).get? (n + 1) = t.get? n from rfl, h]
  | some r => rw [show (a :: t).get? (n + 1) = t.get? n from rfl, h]; rfl

theorem countP_updateStatus (p : Recipient → Bool) :
    ∀ (rs : List Recipient) (i : ℕ) (r : Recipient), rs.get? i = some r →
      ∀ s, ((updateStatus rs i s).countP p : ℤ)
        = (rs.countP p : ℤ) + (if p { r with status := s } then 1 else 0)
          - (if p r then 1 else 0) := by
  intro rs
  induction rs with
  | nil => intro i r h; cases h
  | cons a t ih =>
    intro i r h s
    cases i with
    | zero =>
      have ha : a = r := by
        have : some a = some r := h
        injection this
      subst ha
      rw [updateStatus_cons_zero]
      simp only [List.countP_cons]
      by_cases h1 : p { a with status := s } <;> by_cases h2 : p a <;>
        simp [h1, h2]
    | succ n =>
      have ht : t.get? n = some r := h
      rw [updateStatus_cons_succ]
      simp only [List.countP_cons]
      have := ih n r ht s
      by_cases h2 : p a <;> simp [h2] <;> omega

theorem fallbackStep_recipients (cfg : AirdropConfig) (env : ExecEnv)
    (s : ExecState) (i : ℕ) :
    (fallbackStep cfg env s i).recipients
      = updateStatus s.recipients i (fallbackOutcome cfg env s.recipients i) := by
  rw [fallbackStep_eq]
  unfold fallbackOutcome
  by_cases h : (singleFieldsOk s.recipients i && singleSucceeds cfg env i) = true <;>
    simp [h]

theorem fallbackStep_recipCore (cfg : AirdropConfig) (env : ExecEnv)
    (s : ExecState) (i : ℕ) (j : ℕ) :
    (((fallbackStep cfg env s i).recipients.get? j).map recipCore)
      = ((s.recipients.get? j).map recipCore) := by
  rw [fallbackStep_recipients]
  exact recipCore_updateStatus _ _ _ _

theorem fallbackStep_get?_ne (cfg : AirdropConfig) (env : ExecEnv)
    (s : ExecState) (i j : ℕ) (h : i ≠ j) :
    (fallbackStep cfg env s i).recipients.get? j = s.recipients.get? j := by
  rw [fallbackStep_recipients]
  exact get?_updateStatus_ne _ _ _ _ h

theorem fallbackStep_successful (cfg : AirdropConfig) (env : ExecEnv)
    (s : ExecState) (i : ℕ) :
    (fallbackStep cfg env s i).successful_transfers
      = s.successful_transfers
        + (if fallbackOutcome cfg env s.recipients i == stSuccess then 1 else 0) := by
  rw [fallbackStep_eq]
  unfold fallbackOutcome
  by_cases h : (singleFieldsOk s.recipients i && singleSucceeds cfg env i) = true <;>
    simp [h, stSuccess, stFailed]

theorem fallbackStep_failed (cfg : AirdropConfig) (env : ExecEnv)
    (s : ExecState) (i : ℕ) :
    (fallbackStep cfg env s i).failed_transfers
      = s.failed_transfers
        + (if fallbackOutcome cfg env s.recipients i == stSuccess then 0 else 1) := by
  rw [fallbackStep_eq]
  unfold fallbackOutcome
  by_cases h : (singleFieldsOk s.recipients i && singleSucceeds cfg env i) = true <;>
    simp [h, stSuccess, stFailed]

theorem fallbackStep_sent (cfg : AirdropConfig) (env : ExecEnv)
    (s : ExecState) (i : ℕ) :
    (fallbackStep cfg env s i).sent
      = s.sent ++ newSingleTxs cfg env s.recipients i := by
  rw [fallbackStep_eq]
  by_cases h : (singleFieldsOk s.recipients i && singleSucceeds cfg env i) = true <;>
    simp [h]

theorem fallbackStep_rest (cfg : AirdropConfig) (env : ExecEnv)
    (s : ExecState) (i : ℕ) :
    (fallbackStep cfg env s i).skipped_transfers = s.skipped_transfers
    ∧ (fallbackStep cfg env s i).progress_file = s.progress_file
    ∧ (fallbackStep cfg env s i).saves = s.saves := by
  rw [fallbackStep_eq]
  by_cases h : (singleFieldsOk s.recipients i && singleSucceeds cfg env i) = true <;>
    simp [h]

theorem fallbackLoop_cons (cfg : AirdropConfig) (env : ExecEnv)
    (s : ExecState) (i : ℕ) (t : List ℕ) :
    fallbackLoop cfg env s (i :: t)
      = fallbackLoop cfg env (fallbackStep cfg env s i) t := rfl

theorem fallbackLoop_recipCore (cfg : AirdropConfig) (env : ExecEnv) :
    ∀ (chunk : List ℕ) (s : ExecState) (j : ℕ),
      (((fallbackLoop cfg env s chunk).recipients.get? j).map recipCore)
        = ((s.recipients.get? j).map recipCore) := by
  intro chunk
  induction chunk with
  | nil => intro s j; rfl
  | cons i t ih =>
    intro s j
    rw [fallbackLoop_cons, ih, fallbackStep_recipCore]

theorem fallbackLoop_outcome_congr (cfg : AirdropConfig) (env : ExecEnv)
    (s : ExecState) (i : ℕ) (i' : ℕ) :
    fallbackOutcome cfg env (fallbackStep cfg env s i).recipients i'
      = fallbackOutcome cfg env s.recipients i' :=
  fallbackOutcome_congr cfg env (fun j => fallbackStep_recipCore cfg env s i j) i'

theorem fallbackLoop_get?_not_mem (cfg : AirdropConfig) (env : ExecEnv) :
    ∀ (chunk : List ℕ) (s : ExecState) (j : ℕ), j ∉ chunk →
      (fallbackLoop cfg env s chunk).recipients.get? j = s.recipients.get? j := by
  intro chunk
  induction chunk with
  | nil => intro s j _; rfl
  | cons i t ih =>
    intro s j hj
    rw [fallbackLoop_cons, ih _ _ (fun h => hj (List.mem_cons_of_mem _ h)),
      fallbackStep_get?_ne _ _ _ _ _
        (fun h => hj (by rw [← h]; exact List.mem_cons_self _ _))]

theorem fallbackLoop_get?_mem (cfg : AirdropConfig) (env : ExecEnv) :
    ∀ (chunk : List ℕ) (s : ExecState) (j : ℕ), chunk.Nodup → j ∈ chunk →
      (fallbackLoop cfg env s chunk).recipients.get? j
        = (s.recipients.get? j).map
            (fun r => { r with status := fallbackOutcome cfg env s.recipients j }) := by
  intro chunk
  induction chunk with
  | nil => intro s j _ h; cases h
  | cons i t ih =>
    intro s j hnd hj
    have hnd' := List.nodup_cons.mp hnd
    rw [fallbackLoop_cons]
    by_cases hjt : j ∈ t
    · have hji : i ≠ j := fun h => hnd'.1 (h ▸ hjt)
      rw [ih _ _ hnd'.2 hjt, fallbackStep_get?_ne _ _ _ _ _ hji,
        fallbackLoop_outcome_congr]
    · have hji : j = i := by
        cases List.mem_cons.mp hj with
        | inl h => exact h
        | inr h => exact absurd h hjt
      subst hji
      rw [fallbackLoop_get?_not_mem _ _ _ _ _ hnd'.1, fallbackStep_recipients,
        get?_updateStatus_self]

theorem fallbackLoop_counters (cfg : AirdropConfig) (env : ExecEnv) :
    ∀ (chunk : List ℕ) (s : ExecState),
      (fallbackLoop cfg env s chunk).successful_transfers
          = s.successful_transfers
            + ((chunk.filter (fun i =>
                fallbackOutcome cfg env s.recipients i == stSuccess)).length : ℤ)
      ∧ (fallbackLoop cfg env s chunk).failed_transfers
          = s.failed_transfers
            + ((chunk.filter (fun i =>
                !(fallbackOutcome cfg env s.recipients i == stSuccess))).length : ℤ)
      ∧ (fallbackLoop cfg env s chunk).skipped_transfers = s.skipped_transfers
      ∧ (fallbackLoop cfg env s chunk).progress_file = s.progress_file
      ∧ (fallbackLoop cfg env s chunk).saves = s.saves := by
  intro chunk
  induction chunk with
  | nil => intro s; exact ⟨by simp [fallbackLoop], by simp [fallbackLoop], rfl, rfl, rfl⟩
  | cons i t ih =>
    intro s
    obtain ⟨ih1, ih2, ih3, ih4, ih5⟩ := ih (fallbackStep cfg env s i)
    have hcongr : t.filter (fun i' =>
          fallbackOutcome cfg env (fallbackStep cfg env s i).recipients i' == stSuccess)
        = t.filter (fun i' => fallbackOutcome cfg env s.recipients i' == stSuccess) :=
      List.filter_congr (fun i' _ => by rw [fallbackLoop_outcome_congr])
    have hcongr' : t.filter (fun i' =>
          !(fallbackOutcome cfg env (fallbackStep cfg env s i).recipients i' == stSuccess))
        = t.filter (fun i' => !(fallbackOutcome cfg env s.recipients i' == stSuccess)) :=
      List.filter_congr (fun i' _ => by rw [fallbackLoop_outcome_congr])
    obtain ⟨hr1, hr2, hr3⟩ := fallbackStep_rest cfg env s i
    refine ⟨?_, ?_, ?_, ?_, ?_⟩
    · rw [fallbackLoop_cons, ih1, hcongr, fallbackStep_successful]
      by_cases h : (fallbackOutcome cfg env s.recipients i == stSuccess) = true <;>
        simp [List.filter_cons, h] <;> push_cast <;> omega
    · rw [fallbackLoop_cons, ih2, hcongr', fallbackStep_failed]
      by_cases h : (fallbackOutcome cfg env s.recipients i == stSuccess) = true <;>
        simp [List.filter_cons, h] <;> push_cast <;> omega
    · rw [fallbackLoop_cons, ih3, hr1]
    · rw [fallbackLoop_cons, ih4, hr2]
    · rw [fallbackLoop_cons, ih5, hr3]

theorem fallbackLoop_sent (cfg : AirdropConfig) (env : ExecEnv) :
    ∀ (chunk : List ℕ) (s : ExecState) (tx : Tx),
      tx ∈ (fallbackLoop cfg env s chunk).sent →
      tx ∈ s.sent ∨ ∃ i ∈ chunk, tx ∈ newSingleTxs cfg env s.recipients i := by
  intro chunk
  induction chunk with
  | nil => intro s tx h; exact Or.inl h
  | cons i t ih =>
    intro s tx h
    rw [fallbackLoop_cons] at h
    rcases ih _ _ h with h1 | ⟨i', hi', hmem⟩
    · rw [fallbackStep_sent] at h1
      rcases List.mem_append.mp h1 with h2 | h2
      · exact Or.inl h2
      · exact Or.inr ⟨i, List.mem_cons_self _ _, h2⟩
    · rw [newSingleTxs_congr cfg env
        (fun j => fallbackStep_recipCore cfg env s i j) i'] at hmem
      exact Or.inr ⟨i', List.mem_cons_of_mem _ hi', hmem⟩

theorem fallbackLoop_countSuccess (cfg : AirdropConfig) (env : ExecEnv) :
    ∀ (chunk : List ℕ) (s : ExecState), chunk.Nodup →
      (∀ i ∈ chunk, ∃ r, s.recipients.get? i = some r ∧ r.status = stPending) →
      (countStatus stSuccess (fallbackLoop cfg env s chunk).recipients : ℤ)
        = (countStatus stSuccess s.recipients : ℤ)
          + ((chunk.filter (fun i =>
              fallbackOutcome cfg env s.recipients i == stSuccess)).length : ℤ) := by
  intro chunk
  induction chunk with
  | nil => intro s _ _; simp [fallbackLoop]
  | cons i t ih =>
    intro s hnd hpend
    have hnd' := List.nodup_cons.mp hnd
    obtain ⟨r, hr, hrp⟩ := hpend i (List.mem_cons_self _ _)
    have hstep : (countStatus stSuccess (fallbackStep cfg env s i).recipients : ℤ)
        = (countStatus stSuccess s.recipients : ℤ)
          + (if fallbackOutcome cfg env s.recipients i == stSuccess then 1 else 0) := by
      rw [fallbackStep_recipients]
      unfold countStatus
      rw [countP_updateStatus _ _ _ _ hr]
      have h1 : (r.status == stSuccess) = false := by rw [hrp]; decide
      by_cases h : (fallbackOutcome cfg env s.recipients i == stSuccess) = true <;>
        simp [h, h1]
    have hpend' : ∀ i' ∈ t, ∃ r', (fallbackStep cfg env s i).recipients.get? i' = some r'
        ∧ r'.status = stPending := by
      intro i' hi'
      obtain ⟨r', hr', hrp'⟩ := hpend i' (List.mem_cons_of_mem _ hi')
      refine ⟨r', ?_, hrp'⟩
      rw [fallbackStep_get?_ne _ _ _ _ _ (fun h => hnd'.1 (by rw [h]; exact hi'))]
      exact hr'
    have hcongr : t.filter (fun i' =>
          fallbackOutcome cfg env (fallbackStep cfg env s i).recipients i' == stSuccess)
        = t.filter (fun i' => fallbackOutcome cfg env s.recipients i' == stSuccess) :=
      List.filter_congr (fun i' _ => by rw [fallbackLoop_outcome_congr])
    rw [fallbackLoop_cons, ih _ hnd'.2 hpend', hcongr, hstep]
    by_cases h : (fallbackOutcome cfg env s.recipients i == stSuccess) = true <;>
      simp [List.filter_cons, h] <;> push_cast <;> omega

/-! ## Lemmas: grouped batch submission -/

theorem batchIxs_mem {cfg : AirdropConfig} {rs : List Recipient}
    {chunk : List ℕ} {ix : TransferIx} (h : ix ∈ batchIxs cfg rs chunk) :
    ix.ridx ∈ chunk
    ∧ ∃ r ta, rs.get? ix.ridx = some r ∧ r.token_account = some ta
        ∧ ix = buildTransferIx cfg ix.ridx r ta := by
  obtain ⟨i, hi, hf⟩ := List.mem_filterMap.mp h
  cases hg : rs.get? i with
  | none => rw [hg] at hf; cases hf
  | some r =>
    rw [hg] at hf
    dsimp only at hf
    cases hpk : r.pubkey with
    | none => rw [hpk] at hf; cases hf
    | some pk =>
      cases hta : r.token_account with
      | none => rw [hpk, hta] at hf; cases hf
      | some ta =>
        rw [hpk, hta] at hf
        have hix : ix = buildTransferIx cfg i r ta := by
          injection hf with hf; exact hf.symm
        have hid : ix.ridx = i := by rw [hix]; rfl
        subst hid
        exact ⟨hi, r, ta, hg, hta, hix⟩

theorem batchIxs_complete (cfg : AirdropConfig) :
    ∀ (chunk : List ℕ) (rs : List Recipient),
      (∀ i ∈ chunk, singleFieldsOk rs i = true) →
      (batchIxs cfg rs chunk).length = chunk.length
      ∧ ∀ i ∈ chunk, ∃ ix ∈ batchIxs cfg rs chunk, ix.ridx = i := by
  intro chunk
  induction chunk with
  | nil => intro rs _; exact ⟨rfl, by intro i h; cases h⟩
  | cons i t ih =>
    intro rs hok
    have hi := hok i (List.mem_cons_self _ _)
    unfold singleFieldsOk at hi
    obtain ⟨ihl, ihm⟩ := ih rs (fun i' hi' => hok i' (List.mem_cons_of_mem _ hi'))
    cases hg : rs.get? i with
    | none => rw [hg] at hi; cases hi
    | some r =>
      rw [hg] at hi
      dsimp only at hi
      rw [Bool.and_eq_true] at hi
      obtain ⟨pk, hpk⟩ := Option.isSome_iff_exists.mp hi.1
      obtain ⟨ta, hta⟩ := Option.isSome_iff_exists.mp hi.2
      have hcons : batchIxs cfg rs (i :: t)
          = buildTransferIx cfg i r ta :: batchIxs cfg rs t := by
        unfold batchIxs
        rw [List.filterMap_cons]
        simp only [hg, hpk, hta]
      constructor
      · rw [hcons, List.length_cons, ihl]
        rfl
      · intro i' hi'
        cases List.mem_cons.mp hi' with
        | inl h =>
          subst h
          exact ⟨buildTransferIx cfg i' r ta, by rw [hcons]; exact List.mem_cons_self _ _, rfl⟩
        | inr h =>
          obtain ⟨ix, hmem, hid⟩ := ihm i' h
          exact ⟨ix, by rw [hcons]; exact List.mem_cons_of_mem _ hmem, hid⟩

theorem txTargets_newSingleTxs {cfg : AirdropConfig} {env : ExecEnv}
    {rs : List Recipient} {i : ℕ} {tx : Tx}
    (h : tx ∈ newSingleTxs cfg env rs i) : txTargets tx = [i] := by
  unfold newSingleTxs at h
  cases hg : rs.get? i with
  | none => rw [hg] at h; cases h
  | some r =>
    rw [hg] at h
    dsimp only at h
    cases hpk : r.pubkey with
    | none => rw [hpk] at h; cases h
    | some pk =>
      cases hta : r.token_account with
      | none => rw [hpk, hta] at h; cases h
      | some ta =>
        rw [hpk, hta] at h
        obtain ⟨a, _, hf⟩ := List.mem_map.mp h
        rw [← hf]
        rfl

/-! ## Lemmas: marking a whole batch -/

theorem recipCore_setAllStatus (s : String) :
    ∀ (idxs : List ℕ) (rs : List Recipient) (j : ℕ),
      (((setAllStatus s rs idxs).get? j).map recipCore)
        = ((rs.get? j).map recipCore) := by
  intro idxs
  induction idxs with
  | nil => intro rs j; rfl
  | cons i t ih =>
    intro rs j
    rw [setAllStatus_cons, ih, recipCore_updateStatus]

theorem countSuccess_setAllStatus :
    ∀ (chunk : List ℕ) (rs : List Recipient), chunk.Nodup →
      (∀ i ∈ chunk, ∃ r, rs.get? i = some r ∧ r.status = stPending) →
      (countStatus stSuccess (setAllStatus stSuccess rs chunk) : ℤ)
        = (countStatus stSuccess rs : ℤ) + chunk.length := by
  intro chunk
  induction chunk with
  | nil => intro rs _ _; simp [setAllStatus]
  | cons i t ih =>
    intro rs hnd hpend
    have hnd' := List.nodup_cons.mp hnd
    obtain ⟨r, hr, hrp⟩ := hpend i (List.mem_cons_self _ _)
    have hpend' : ∀ i' ∈ t, ∃ r', (updateStatus rs i stSuccess).get? i' = some r'
        ∧ r'.status = stPending := by
      intro i' hi'
      obtain ⟨r', hr', hrp'⟩ := hpend i' (List.mem_cons_of_mem _ hi')
      exact ⟨r', by
        rw [get?_updateStatus_ne _ _ _ _ (fun h => hnd'.1 (by rw [h]; exact hi'))]
        exact hr', hrp'⟩
    have h1 : (r.status == stSuccess) = false := by rw [hrp]; decide
    rw [setAllStatus_cons, ih _ hnd'.2 hpend']
    unfold countStatus
    rw [countP_updateStatus _ _ _ _ hr]
    simp [h1]
    omega

/-! ## Lemmas: one batch iteration -/

theorem save_progress_fields (cfg : AirdropConfig) (st : ExecState) :
    (save_progress cfg st).recipients = st.recipients
    ∧ (save_progress cfg st).successful_transfers = st.successful_transfers
    ∧ (save_progress cfg st).failed_transfers = st.failed_transfers
    ∧ (save_progress cfg st).skipped_transfers = st.skipped_transfers
    ∧ (save_progress cfg st).sent = st.sent :=
  ⟨rfl, rfl, rfl, rfl, rfl⟩

theorem processChunk_eq_true (cfg : AirdropConfig) (env : ExecEnv) (j : ℕ)
    (st : ExecState) (chunk : List ℕ) (h : env.batchOk j = true) :
    processChunk cfg env j st chunk
      = save_progress cfg
          { st with
            sent := st.sent ++ [Tx.batch (batchIxs cfg st.recipients chunk)],
            successful_transfers := st.successful_transfers + (chunk.length : ℤ),
            recipients :=
              setAllStatus stSuccess
                (setAllStatus stSuccess st.recipients chunk) chunk } := by
  unfold processChunk _execute_transfer_batch
  rw [h]
  rfl

theorem processChunk_eq_false (cfg : AirdropConfig) (env : ExecEnv) (j : ℕ)
    (st : ExecState) (chunk : List ℕ) (h : env.batchOk j = false) :
    processChunk cfg env j st chunk
      = save_progress cfg
          (fallbackLoop cfg env
            { st with
              sent := st.sent ++ [Tx.batch (batchIxs cfg st.recipients chunk)] }
            chunk) := by
  unfold processChunk _execute_transfer_batch
  rw [h]
  rfl

theorem processChunk_recipCore (cfg : AirdropConfig) (env : ExecEnv) (j : ℕ)
    (st : ExecState) (chunk : List ℕ) (j' : ℕ) :
    (((processChunk cfg env j st chunk).recipients.get? j').map recipCore)
      = ((st.recipients.get? j').map recipCore) := by
  cases h : env.batchOk j with
  | true =>
    rw [processChunk_eq_true cfg env j st chunk h]
    rw [(save_progress_fields _ _).1]
    rw [recipCore_setAllStatus, recipCore_setAllStatus]
  | false =>
    rw [processChunk_eq_false cfg env j st chunk h]
    rw [(save_progress_fields _ _).1]
    rw [fallbackLoop_recipCore]

theorem processChunk_get?_not_mem (cfg : AirdropConfig) (env : ExecEnv)
    (j : ℕ) (st : ExecState) (chunk : List ℕ) (j' : ℕ) (hj : j' ∉ chunk) :
    (processChunk cfg env j st chunk).recipients.get? j'
      = st.recipients.get? j' := by
  cases h : env.batchOk j with
  | true =>
    rw [processChunk_eq_true cfg env j st chunk h, (save_progress_fields _ _).1,
      get?_setAllStatus_not_mem _ _ _ _ hj, get?_setAllStatus_not_mem _ _ _ _ hj]
  | false =>
    rw [processChunk_eq_false cfg env j st chunk h, (save_progress_fields _ _).1,
      fallbackLoop_get?_not_mem _ _ _ _ _ hj]

theorem processChunk_get?_mem (cfg : AirdropConfig) (env : ExecEnv)
    (j : ℕ) (st : ExecState) (chunk : List ℕ) (i : ℕ) (hnd : chunk.Nodup)
    (hi : i ∈ chunk) :
    (processChunk cfg env j st chunk).recipients.get? i
      = (st.recipients.get? i).map
          (fun r => { r with status := chunkOutcome cfg env j st.recipients i }) := by
  cases h : env.batchOk j with
  | true =>
    rw [processChunk_eq_true cfg env j st chunk h, (save_progress_fields _ _).1,
      get?_setAllStatus_mem _ _ _ _ hi, get?_setAllStatus_mem _ _ _ _ hi]
    unfold chunkOutcome
    rw [h]
    cases st.recipients.get? i <;> rfl
  | false =>
    rw [processChunk_eq_false cfg env j st chunk h, (save_progress_fields _ _).1,
      fallbackLoop_get?_mem _ _ _ _ _ hnd hi]
    unfold chunkOutcome
    rw [h]
    rfl

theorem processChunk_counters (cfg : AirdropConfig) (env : ExecEnv)
    (j : ℕ) (st : ExecState) (chunk : List ℕ) :
    (processChunk cfg env j st chunk).successful_transfers
        = st.successful_transfers
          + ((chunk.filter (fun i =>
              chunkOutcome cfg env j st.recipients i == stSuccess)).length : ℤ) := by
  cases h : env.batchOk j with
  | true =>
    rw [processChunk_eq_true cfg env j st chunk h, (save_progress_fields _ _).2.1]
    have hall : chunk.filter (fun i =>
        chunkOutcome cfg env j st.recipients i == stSuccess) = chunk :=
      List.filter_eq_self.mpr (fun i _ => by
        unfold chunkOutcome; rw [h]; simp)
    rw [hall]
  | false =>
    rw [processChunk_eq_false cfg env j st chunk h, (save_progress_fields _ _).2.1]
    have := (fallbackLoop_counters cfg env chunk
      { st with sent := st.sent ++ [Tx.batch (batchIxs cfg st.recipients chunk)] }).1
    rw [this]
    have hpred : chunk.filter (fun i =>
          fallbackOutcome cfg env st.recipients i == stSuccess)
        = chunk.filter (fun i =>
          chunkOutcome cfg env j st.recipients i == stSuccess) :=
      List.filter_congr (fun i _ => by unfold chunkOutcome; rw [h]; simp)
    rw [← hpred]

theorem processChunk_countSuccess (cfg : AirdropConfig) (env : ExecEnv)
    (j : ℕ) (st : ExecState) (chunk : List ℕ) (hnd : chunk.Nodup)
    (hpend : ∀ i ∈ chunk, ∃ r, st.recipients.get? i = some r
        ∧ r.status = stPending) :
    (countStatus stSuccess (processChunk cfg env j st chunk).recipients : ℤ)
      = (countStatus stSuccess st.recipients : ℤ)
        + ((chunk.filter (fun i =>
            chunkOutcome cfg env j st.recipients i == stSuccess)).length : ℤ) := by
  cases h : env.batchOk j with
  | true =>
    rw [processChunk_eq_true cfg env j st chunk h, (save_progress_fields _ _).1]
    have hall : chunk.filter (fun i =>
        chunkOutcome cfg env j st.recipients i == stSuccess) = chunk :=
      List.filter_eq_self.mpr (fun i _ => by
        unfold chunkOutcome; rw [h]; simp)
    rw [hall]
    have hpend2 : ∀ i ∈ chunk, ∃ r,
        (setAllStatus stSuccess st.recipients chunk).get? i = some r
        ∧ r.status = stSuccess := by
      intro i hi
      obtain ⟨r, hr, -⟩ := hpend i hi
      refine ⟨{ r with status := stSuccess }, ?_, rfl⟩
      rw [get?_setAllStatus_mem _ _ _ _ hi, hr]
      rfl
    have h2 : (countStatus stSuccess
        (setAllStatus stSuccess (setAllStatus stSuccess st.recipients chunk) chunk) : ℤ)
        = (countStatus stSuccess (setAllStatus stSuccess st.recipients chunk) : ℤ) := by
      have : ∀ (c2 : List ℕ) (rs : List Recipient),
          (∀ i ∈ c2, ∃ r, rs.get? i = some r ∧ r.status = stSuccess) →
          (countStatus stSuccess (setAllStatus stSuccess rs c2) : ℤ)
            = (countStatus stSuccess rs : ℤ) := by
        intro c2
        induction c2 with
        | nil => intro rs _; rfl
        | cons i2 t2 ih =>
          intro rs hsc
          obtain ⟨r, hr, hrs⟩ := hsc i2 (List.mem_cons_self _ _)
          have hstep : (countStatus stSuccess (updateStatus rs i2 stSuccess) : ℤ)
              = (countStatus stSuccess rs : ℤ) := by
            unfold countStatus
            rw [countP_updateStatus _ _ _ _ hr]
            have h1 : (r.status == stSuccess) = true := by rw [hrs]; decide
            simp [h1]
          rw [setAllStatus_cons, ih _ ?_, hstep]
          intro i' hi'
          obtain ⟨r', hr', hrs'⟩ := hsc i' (List.mem_cons_of_mem _ hi')
          by_cases hii : i2 = i'
          · subst hii
            refine ⟨{ r' with status := stSuccess }, ?_, rfl⟩
            rw [get?_updateStatus_self, hr']
            rfl
          · exact ⟨r', by rw [get?_updateStatus_ne _ _ _ _ hii]; exact hr', hrs'⟩
      exact this chunk _ hpend2
    rw [h2, countSuccess_setAllStatus chunk st.recipients hnd hpend]
  | false =>
    rw [processChunk_eq_false cfg env j st chunk h, (save_progress_fields _ _).1]
    have hres := fallbackLoop_countSuccess cfg env chunk
      { st with sent := st.sent ++ [Tx.batch (batchIxs cfg st.recipients chunk)] }
      hnd hpend
    rw [hres]
    have hpred : chunk.filter (fun i =>
          fallbackOutcome cfg env st.recipients i == stSuccess)
        = chunk.filter (fun i =>
          chunkOutcome cfg env j st.recipients i == stSuccess) :=
      List.filter_congr (fun i _ => by unfold chunkOutcome; rw [h]; simp)
    rw [← hpred]

theorem processChunk_sent (cfg : AirdropConfig) (env : ExecEnv)
    (j : ℕ) (st : ExecState) (chunk : List ℕ) (tx : Tx)
    (h : tx ∈ (processChunk cfg env j st chunk).sent) :
    tx ∈ st.sent ∨ ∀ t ∈ txTargets tx, t ∈ chunk := by
  cases hb : env.batchOk j with
  | true =>
    rw [processChunk_eq_true cfg env j st chunk hb,
      (save_progress_fields _ _).2.2.2.2] at h
    rcases List.mem_append.mp h with h1 | h1
    · exact Or.inl h1
    · refine Or.inr ?_
      have : tx = Tx.batch (batchIxs cfg st.recipients chunk) :=
        List.mem_singleton.mp h1
      subst this
      intro t ht
      obtain ⟨ix, hix, hixt⟩ := List.mem_map.mp ht
      exact hixt ▸ (batchIxs_mem hix).1
  | false =>
    rw [processChunk_eq_false cfg env j st chunk hb,
      (save_progress_fields _ _).2.2.2.2] at h
    rcases fallbackLoop_sent cfg env chunk _ tx h with h1 | ⟨i, hi, hmem⟩
    · rcases List.mem_append.mp h1 with h2 | h2
      · exact Or.inl h2
      · refine Or.inr ?_
        have : tx = Tx.batch (batchIxs cfg st.recipients chunk) :=
          List.mem_singleton.mp h2
        subst this
        intro t ht
        obtain ⟨ix, hix, hixt⟩ := List.mem_map.mp ht
        exact hixt ▸ (batchIxs_mem hix).1
    · refine Or.inr ?_
      rw [txTargets_newSingleTxs hmem]
      intro t ht
      rw [List.mem_singleton.mp ht]
      exact hi

/-! ## Lemmas: the batch loop -/

theorem chunkOutcome_congr (cfg : AirdropConfig) (env : ExecEnv) (j : ℕ)
    {rs rs' : List Recipient}
    (h : ∀ i, ((rs'.get? i).map recipCore) = ((rs.get? i).map recipCore))
    (i : ℕ) : chunkOutcome cfg env j rs' i = chunkOutcome cfg env j rs i := by
  unfold chunkOutcome
  rw [fallbackOutcome_congr cfg env h]

theorem processBatches_cons (cfg : AirdropConfig) (env : ExecEnv) (j : ℕ)
    (st : ExecState) (c : List ℕ) (cs : List (List ℕ)) :
    processBatches cfg env j st (c :: cs)
      = processBatches cfg env (j + 1) (processChunk cfg env j st c) cs := rfl

theorem processBatches_append (cfg : AirdropConfig) (env : ExecEnv) :
    ∀ (l₁ l₂ : List (List ℕ)) (j : ℕ) (st : ExecState),
      processBatches cfg env j st (l₁ ++ l₂)
        = processBatches cfg env (j + l₁.length)
            (processBatches cfg env j st l₁) l₂ := by
  intro l₁
  induction l₁ with
  | nil => intro l₂ j st; rfl
  | cons c cs ih =>
    intro l₂ j st
    rw [List.cons_append, processBatches_cons, ih, processBatches_cons]
    congr 1
    simp
    omega

theorem processBatches_get?_not_mem (cfg : AirdropConfig) (env : ExecEnv) :
    ∀ (cs : List (List ℕ)) (j : ℕ) (st : ExecState) (i : ℕ),
      i ∉ cs.flatten →
      (processBatches cfg env j st cs).recipients.get? i
        = st.recipients.get? i := by
  intro cs
  induction cs with
  | nil => intro j st i _; rfl
  | cons c cs' ih =>
    intro j st i hi
    rw [List.flatten_cons] at hi
    have h1 : i ∉ c := fun h => hi (List.mem_append.mpr (Or.inl h))
    have h2 : i ∉ cs'.flatten := fun h => hi (List.mem_append.mpr (Or.inr h))
    rw [processBatches_cons, ih _ _ _ h2, processChunk_get?_not_mem _ _ _ _ _ _ h1]

theorem processBatches_recipCore (cfg : AirdropConfig) (env : ExecEnv) :
    ∀ (cs : List (List ℕ)) (j : ℕ) (st : ExecState) (i : ℕ),
      (((processBatches cfg env j st cs).recipients.get? i).map recipCore)
        = ((st.recipients.get? i).map recipCore) := by
  intro cs
  induction cs with
  | nil => intro j st i; rfl
  | cons c cs' ih =>
    intro j st i
    rw [processBatches_cons, ih, processChunk_recipCore]

theorem pending_propagate (cfg : AirdropConfig) (env : ExecEnv) (j : ℕ)
    (st : ExecState) (c : List ℕ) (cs : List (List ℕ))
    (hnd : ((c :: cs).flatten).Nodup)
    (hpend : ∀ i ∈ (c :: cs).flatten, ∃ r, st.recipients.get? i = some r
        ∧ r.status = stPending) :
    ∀ i ∈ cs.flatten, ∃ r,
      (processChunk cfg env j st c).recipients.get? i = some r
      ∧ r.status = stPending := by
  intro i hi
  rw [List.flatten_cons] at hnd hpend
  have hdisj := (List.nodup_append.mp hnd).2.2
  have hic : i ∉ c := fun h => hdisj h hi
  obtain ⟨r, hr, hrp⟩ := hpend i (List.mem_append.mpr (Or.inr hi))
  exact ⟨r, by rw [processChunk_get?_not_mem _ _ _ _ _ _ hic]; exact hr, hrp⟩

theorem processBatches_outcome (cfg : AirdropConfig) (env : ExecEnv) :
    ∀ (cs : List (List ℕ)) (j : ℕ) (st : ExecState),
      ((cs.flatten).Nodup) →
      (∀ i ∈ cs.flatten, ∃ r, st.recipients.get? i = some r
          ∧ r.status = stPending) →
      ∀ (t : ℕ) (c : List ℕ), cs.get? t = some c → ∀ i ∈ c,
        (processBatches cfg env j st cs).recipients.get? i
          = (st.recipients.get? i).map
              (fun r => { r with
                status := chunkOutcome cfg env (j + t) st.recipients i }) := by
  intro cs
  induction cs with
  | nil => intro j st _ _ t c hc; cases hc
  | cons c0 cs' ih =>
    intro j st hnd hpend t c hc i hi
    have hnd' := hnd
    rw [List.flatten_cons] at hnd'
    have hc0nd : c0.Nodup := (List.nodup_append.mp hnd').1
    have hcs'nd : (cs'.flatten).Nodup := (List.nodup_append.mp hnd').2.1
    have hdisj := (List.nodup_append.mp hnd').2.2
    cases t with
    | zero =>
      have hcc : c = c0 := by
        have : some c = some c0 := hc.symm
        injection this
      subst hcc
      have hinc : i ∉ cs'.flatten := fun h => hdisj hi h
      rw [processBatches_cons, processBatches_get?_not_mem _ _ _ _ _ _ hinc,
        processChunk_get?_mem _ _ _ _ _ _ hc0nd hi]
      rfl
    | succ t' =>
      have hct : cs'.get? t' = some c := hc
      have hpend' := pending_propagate cfg env j st c0 cs' hnd hpend
      rw [processBatches_cons, ih _ _ hcs'nd hpend' t' c hct i hi]
      have hcore := fun i' => processChunk_recipCore cfg env j st c0 i'
      rw [chunkOutcome_congr cfg env _ hcore]
      have hic0 : i ∉ c0 := fun h =>
        hdisj h (List.mem_flatten.mpr ⟨c, List.get?_mem hct, hi⟩)
      rw [processChunk_get?_not_mem _ _ _ _ _ _ hic0]
      have : j + 1 + t' = j + (t' + 1) := by omega
      rw [this]

theorem processBatches_successful (cfg : AirdropConfig) (env : ExecEnv) :
    ∀ (cs : List (List ℕ)) (j : ℕ) (st : ExecState),
      ((cs.flatten).Nodup) →
      (∀ i ∈ cs.flatten, ∃ r, st.recipients.get? i = some r
          ∧ r.status = stPending) →
      (processBatches cfg env j st cs).successful_transfers
          + (countStatus stSuccess st.recipients : ℤ)
        = st.successful_transfers
          + (countStatus stSuccess
              (processBatches cfg env j st cs).recipients : ℤ) := by
  intro cs
  induction cs with
  | nil => intro j st _ _; rfl
  | cons c0 cs' ih =>
    intro j st hnd hpend
    have hnd' := hnd
    rw [List.flatten_cons] at hnd'
    have hc0nd : c0.Nodup := (List.nodup_append.mp hnd').1
    have hcs'nd : (cs'.flatten).Nodup := (List.nodup_append.mp hnd').2.1
    have hpendc0 : ∀ i ∈ c0, ∃ r, st.recipients.get? i = some r
        ∧ r.status = stPending := by
      intro i hi
      exact hpend i (by rw [List.flatten_cons]; exact List.mem_append.mpr (Or.inl hi))
    have hpend' := pending_propagate cfg env j st c0 cs' hnd hpend
    have hcnt := processChunk_counters cfg env j st c0
    have hcs := processChunk_countSuccess cfg env j st c0 hc0nd hpendc0
    have hih := ih (j + 1) (processChunk cfg env j st c0) hcs'nd hpend'
    rw [processBatches_cons]
    omega

theorem processBatches_sent (cfg : AirdropConfig) (env : ExecEnv) :
    ∀ (cs : List (List ℕ)) (j : ℕ) (st : ExecState) (tx : Tx),
      tx ∈ (processBatches cfg env j st cs).sent →
      tx ∈ st.sent ∨ ∃ c ∈ cs, ∀ t ∈ txTargets tx, t ∈ c := by
  intro cs
  induction cs with
  | nil => intro j st tx h; exact Or.inl h
  | cons c0 cs' ih =>
    intro j st tx h
    rw [processBatches_cons] at h
    rcases ih _ _ _ h with h1 | ⟨c, hc, hts⟩
    · rcases processChunk_sent cfg env j st c0 tx h1 with h2 | h2
      · exact Or.inl h2
      · exact Or.inr ⟨c0, List.mem_cons_self _ _, h2⟩
    · exact Or.inr ⟨c, List.mem_cons_of_mem _ hc, hts⟩

theorem processBatches_preserves_terminal (cfg : AirdropConfig) (env : ExecEnv)
    (cs : List (List ℕ)) (j : ℕ) (st : ExecState)
    (hpend : ∀ i ∈ cs.flatten, ∃ r, st.recipients.get? i = some r
        ∧ r.status = stPending)
    (i : ℕ) (r : Recipient) (hr : st.recipients.get? i = some r)
    (hterm : r.status ≠ stPending) :
    (processBatches cfg env j st cs).recipients.get? i
      = st.recipients.get? i := by
  have hni : i ∉ cs.flatten := by
    intro hmem
    obtain ⟨r', hr', hrp'⟩ := hpend i hmem
    rw [hr] at hr'
    have : r = r' := by injection hr'
    exact hterm (this ▸ hrp')
  exact processBatches_get?_not_mem cfg env cs j st i hni

/-! ## Lemmas: checkpoint load -/

theorem load_progress_cases (parse : String → Option ProgressData)
    (cfg : AirdropConfig) (st : ExecState) :
    load_progress parse cfg st = (st, false)
    ∨ (∃ content d, st.progress_file = some content ∧ parse content = some d
        ∧ d.phase = some cfg.phase
        ∧ d.total_recipients = some (st.recipients.length : ℤ)
        ∧ statusPairs d.recipients = none
        ∧ load_progress parse cfg st
          = ({ st with
                successful_transfers := d.successful_transfers.getD 0,
                failed_transfers := d.failed_transfers.getD 0,
                skipped_transfers := d.skipped_transfers.getD 0 }, false))
    ∨ ∃ content d m, st.progress_file = some content ∧ parse content = some d
        ∧ d.phase = some cfg.phase
        ∧ d.total_recipients = some (st.recipients.length : ℤ)
        ∧ statusPairs d.recipients = some m
        ∧ load_progress parse cfg st
          = ({ st with
                successful_transfers := d.successful_transfers.getD 0,
                failed_transfers := d.failed_transfers.getD 0,
                skipped_transfers := d.skipped_transfers.getD 0,
                recipients := st.recipients.map (restoreStatus m) }, true) := by
  unfold load_progress
  cases hf : st.progress_file with
  | none => exact Or.inl rfl
  | some content =>
    dsimp only
    cases hp : parse content with
    | none => exact Or.inl rfl
    | some d =>
      dsimp only
      by_cases h1 : d.phase ≠ some cfg.phase
      · rw [if_pos h1]; exact Or.inl rfl
      · rw [if_neg h1]
        by_cases h2 : d.total_recipients ≠ some (st.recipients.length : ℤ)
        · rw [if_pos h2]; exact Or.inl rfl
        · rw [if_neg h2]
          cases hsp : statusPairs d.recipients with
          | none =>
            exact Or.inr (Or.inl ⟨content, d, rfl, hp, not_not.mp h1,
              not_not.mp h2, hsp, rfl⟩)
          | some m =>
            exact Or.inr (Or.inr ⟨content, d, m, rfl, hp, not_not.mp h1,
              not_not.mp h2, hsp, rfl⟩)

theorem load_progress_frame (parse : String → Option ProgressData)
    (cfg : AirdropConfig) (st : ExecState) :
    (load_progress parse cfg st).1.progress_file = st.progress_file
    ∧ (load_progress parse cfg st).1.sent = st.sent
    ∧ (load_progress parse cfg st).1.saves = st.saves
    ∧ (load_progress parse cfg st).1.recipients.length
        = st.recipients.length := by
  rcases load_progress_cases parse cfg st with h |
      ⟨content, d, -, -, -, -, -, h⟩ | ⟨content, d, m, -, -, -, -, -, h⟩ <;>
    rw [h] <;> exact ⟨rfl, rfl, rfl, by simp⟩

/-! ## Claim theorems -/

/-- C2 (amended): `load_progress` restores recipient statuses and the three
counters and returns `True` exactly when the persisted checkpoint decodes,
its `phase` equals the current phase, its recipient count equals the
current recipient list's length, and every entry of its `recipients` list
carries both keys; an absent file, a decode failure, or a phase or count
mismatch restores nothing, returns `False`, and a run whose recipients
were all `pending` proceeds with every recipient `pending`; but a
checkpoint that decodes with matching phase and count and a malformed
`recipients` entry restores the three counters (reassigned at lines
609-611, before the comprehension of line 614 raises), touches no status,
and still returns `False`. -/
theorem c2_amended_checkpoint_restore_gate
    (parse : String → Option ProgressData)
    (cfg : AirdropConfig) (st : ExecState) :
    (∀ content d m, st.progress_file = some content → parse content = some d →
        d.phase = some cfg.phase →
        d.total_recipients = some (st.recipients.length : ℤ) →
        statusPairs d.recipients = some m →
        load_progress parse cfg st
          = ({ st with
                successful_transfers := d.successful_transfers.getD 0,
                failed_transfers := d.failed_transfers.getD 0,
                skipped_transfers := d.skipped_transfers.getD 0,
                recipients := st.recipients.map (restoreStatus m) }, true))
    ∧ (∀ content d, st.progress_file = some content → parse content = some d →
        d.phase = some cfg.phase →
        d.total_recipients = some (st.recipients.length : ℤ) →
        statusPairs d.recipients = none →
        load_progress parse cfg st
          = ({ st with
                successful_transfers := d.successful_transfers.getD 0,
                failed_transfers := d.failed_transfers.getD 0,
                skipped_transfers := d.skipped_transfers.getD 0 }, false))
    ∧ ((st.progress_file = none
        ∨ ∃ content, st.progress_file = some content ∧
            (parse content = none
             ∨ ∃ d, parse content = some d ∧
                (d.phase ≠ some cfg.phase
                 ∨ d.total_recipients ≠ some (st.recipients.length : ℤ)))) →
        load_progress parse cfg st = (st, false)
        ∧ ((∀ r ∈ st.recipients, r.status = stPending) →
            ∀ r ∈ (load_progress parse cfg st).1.recipients,
              r.status = stPending)) := by
  refine ⟨?_, ?_, ?_⟩
  · intro content d m h1 h2 h3 h4 h5
    unfold load_progress
    rw [h1]
    dsimp only
    rw [h2]
    dsimp only
    rw [if_neg (not_not.mpr h3), if_neg (not_not.mpr h4), h5]
  · intro content d h1 h2 h3 h4 h5
    unfold load_progress
    rw [h1]
    dsimp only
    rw [h2]
    dsimp only
    rw [if_neg (not_not.mpr h3), if_neg (not_not.mpr h4), h5]
  · intro hfail
    have contra : ∀ content d, st.progress_file = some content →
        parse content = some d → d.phase = some cfg.phase →
        d.total_recipients = some (st.recipients.length : ℤ) → False := by
      intro content d hc1 hc2 hc3 hc4
      rcases hfail with hnone | ⟨content2, hfc, hinner⟩
      · rw [hnone] at hc1; cases hc1
      · rw [hfc] at hc1
        have hce : content2 = content := by injection hc1
        subst hce
        rcases hinner with hpn | ⟨d2, hpd, hmis⟩
        · rw [hpn] at hc2; cases hc2
        · rw [hpd] at hc2
          have hde : d2 = d := by injection hc2
          subst hde
          rcases hmis with hm | hm
          · exact hm hc3
          · exact hm hc4
    rcases load_progress_cases parse cfg st with hcase |
      ⟨content, d, hc1, hc2, hc3, hc4, -, -⟩ |
      ⟨content, d, m, hc1, hc2, hc3, hc4, -, -⟩
    · refine ⟨hcase, fun hp r hr => hp r ?_⟩
      rw [hcase] at hr
      exact hr
    · exact absurd hc4 (fun h => contra content d hc1 hc2 hc3 h)
    · exact absurd hc4 (fun h => contra content d hc1 hc2 hc3 h)

/-- C3: in dry-run mode the executor reports success, marks every pending
recipient `success`, adds the number of pending recipients to the success
counter, leaves the other counters alone, performs no network submission,
records no checkpoint write, and leaves the on-disk checkpoint file exactly
as it was (absent before implies absent after). -/
theorem c3_dry_run_no_write (cfg : AirdropConfig) (env : ExecEnv)
    (parse : String → Option ProgressData) (st : ExecState)
    (hdry : cfg.dry_run = true) :
    (execute_token_transfers_with_resume cfg env parse st).2 = true
    ∧ (execute_token_transfers_with_resume cfg env parse st).1.progress_file
        = st.progress_file
    ∧ (execute_token_transfers_with_resume cfg env parse st).1.saves = st.saves
    ∧ (execute_token_transfers_with_resume cfg env parse st).1.sent = st.sent
    ∧ (execute_token_transfers_with_resume cfg env parse st).1.successful_transfers
        = (load_progress parse cfg st).1.successful_transfers
          + (countStatus stPending (load_progress parse cfg st).1.recipients : ℤ)
    ∧ (execute_token_transfers_with_resume cfg env parse st).1.failed_transfers
        = (load_progress parse cfg st).1.failed_transfers
    ∧ (execute_token_transfers_with_resume cfg env parse st).1.skipped_transfers
        = (load_progress parse cfg st).1.skipped_transfers
    ∧ ∀ i, (execute_token_transfers_with_resume cfg env parse st).1.recipients.get? i
        = ((load_progress parse cfg st).1.recipients.get? i).map
            (fun r => if r.status == stPending
              then { r with status := stSuccess } else r) := by
  obtain ⟨hfile, hsent, hsaves, -⟩ := load_progress_frame parse cfg st
  unfold execute_token_transfers_with_resume
  by_cases hemp : (pendingIndices (load_progress parse cfg st).1.recipients).isEmpty = true
  · rw [if_pos hemp]
    have hnil : pendingIndices (load_progress parse cfg st).1.recipients = [] :=
      List.isEmpty_iff.mp hemp
    have hcount : countStatus stPending (load_progress parse cfg st).1.recipients = 0 := by
      rw [← length_pendingIndices, hnil]
      rfl
    have hnp : ∀ r ∈ (load_progress parse cfg st).1.recipients,
        ¬((fun r => r.status == stPending) r) := by
      rw [← List.countP_eq_zero]
      exact hcount
    refine ⟨rfl, hfile, hsaves, hsent, by rw [hcount]; simp, rfl, rfl, ?_⟩
    intro i
    cases hgi : (load_progress parse cfg st).1.recipients.get? i with
    | none => rfl
    | some r =>
      have hmem := List.get?_mem hgi
      have hne : r.status ≠ stPending := by
        intro h
        exact hnp r hmem (by simp [h])
      simp [hgi, hne]
  · rw [if_neg hemp, if_pos hdry]
    refine ⟨rfl, hfile, hsaves, hsent, ?_, rfl, rfl, ?_⟩
    · show (load_progress parse cfg st).1.successful_transfers
          + ((pendingIndices (load_progress parse cfg st).1.recipients).length : ℤ)
        = _
      rw [length_pendingIndices]
    · intro i
      by_cases hip : i ∈ pendingIndices (load_progress parse cfg st).1.recipients
      · obtain ⟨r, hr, hrp⟩ := mem_pendingIndices.mp hip
        show (markDry _ _).get? i = _
        unfold markDry
        rw [get?_setAllStatus_mem _ _ _ _ hip, hr]
        have : (r.status == stPending) = true := beq_iff_eq.mpr hrp
        simp only [Option.map_some']
        rw [if_pos this]
      · show (markDry _ _).get? i = _
        unfold markDry
        rw [get?_setAllStatus_not_mem _ _ _ _ hip]
        cases hgi : (load_progress parse cfg st).1.recipients.get? i with
        | none => rfl
        | some r =>
          have hnp : r.status ≠ stPending := fun hp =>
            hip (mem_pendingIndices.mpr ⟨r, hgi, hp⟩)
          simp only [Option.map_some']
          rw [if_neg (fun hb => hnp (beq_iff_eq.mp hb))]

/-- C1: on a resumed run whose checkpoint matches the current phase and
recipient count, the executor's working set is exactly the recipients whose
restored status is `pending` (the source's `get_pending_recipients` filter),
its size is the number of restored-`pending` recipients, and every
transaction the executor submits pays only restored-`pending` recipients:
a recipient restored `success`, `failed` or `skipped` is never submitted
again. -/
theorem c1_resume_pending_working_set (cfg : AirdropConfig) (env : ExecEnv)
    (parse : String → Option ProgressData) (st : ExecState)
    (content : String) (d : ProgressData)
    (hfile : st.progress_file = some content)
    (hparse : parse content = some d)
    (hphase : d.phase = some cfg.phase)
    (hcount : d.total_recipients = some (st.recipients.length : ℤ)) :
    get_pending_recipients (load_progress parse cfg st).1.recipients
        = (load_progress parse cfg st).1.recipients.filter
            (fun r => r.status == stPending)
    ∧ (get_pending_recipients (load_progress parse cfg st).1.recipients).length
        = countStatus stPending (load_progress parse cfg st).1.recipients
    ∧ ∀ tx ∈ (execute_token_transfers_with_resume cfg env parse st).1.sent,
        tx ∈ st.sent
        ∨ ∀ t ∈ txTargets tx,
            ∃ r, (load_progress parse cfg st).1.recipients.get? t = some r
              ∧ r.status = stPending := by
  obtain ⟨-, hsent, -, -⟩ := load_progress_frame parse cfg st
  refine ⟨rfl, ?_, ?_⟩
  · unfold get_pending_recipients countStatus
    rw [List.countP_eq_length_filter]
  · intro tx htx
    unfold execute_token_transfers_with_resume at htx
    by_cases hemp :
        (pendingIndices (load_progress parse cfg st).1.recipients).isEmpty = true
    · rw [if_pos hemp] at htx
      rw [hsent] at htx
      exact Or.inl htx
    · rw [if_neg hemp] at htx
      by_cases hdry : cfg.dry_run = true
      · rw [if_pos hdry] at htx
        rw [hsent] at htx
        exact Or.inl htx
      · rw [if_neg hdry] at htx
        rcases processBatches_sent cfg env _ 0 _ tx htx with h1 | ⟨c, hc, hts⟩
        · rw [hsent] at h1
          exact Or.inl h1
        · refine Or.inr (fun t ht => ?_)
          have htp : t ∈ pendingIndices (load_progress parse cfg st).1.recipients :=
            mem_of_mem_chunkList hc (hts t ht)
          exact mem_pendingIndices.mp htp

theorem newSingleTxs_length {cfg : AirdropConfig} {env : ExecEnv}
    {rs : List Recipient} {i : ℕ} (h : singleFieldsOk rs i = true) :
    (newSingleTxs cfg env rs i).length = singleAttemptCount cfg env i := by
  unfold singleFieldsOk at h
  unfold newSingleTxs
  cases hg : rs.get? i with
  | none => rw [hg] at h; cases h
  | some r =>
    rw [hg] at h
    dsimp only at h
    rw [Bool.and_eq_true] at h
    obtain ⟨pk, hpk⟩ := Option.isSome_iff_exists.mp h.1
    obtain ⟨ta, hta⟩ := Option.isSome_iff_exists.mp h.2
    dsimp only
    rw [hpk, hta]
    simp

/-- C4: when a batch's grouped submission fails, every member of that batch
is retried individually and ends in a terminal status: `success` as soon as
one of its individual attempts succeeds, `failed` when all `max_retries`
attempts fail; no member of the batch remains `pending`.  Moreover the
individual-retry procedure submits exactly one transaction per attempt,
never more than `max_retries` of them, and exactly `max_retries` when every
attempt fails. -/
theorem c4_failed_batch_fallback (cfg : AirdropConfig) (env : ExecEnv)
    (parse : String → Option ProgressData) (st : ExecState)
    (hdry : cfg.dry_run = false)
    (hfields : ∀ r ∈ (load_progress parse cfg st).1.recipients,
        r.pubkey.isSome = true ∧ r.token_account.isSome = true) :
    (∀ t c, (chunkList cfg.batch_size
          (pendingIndices (load_progress parse cfg st).1.recipients)).get? t
          = some c →
      env.batchOk t = false →
      ∀ i ∈ c, ∃ r, (load_progress parse cfg st).1.recipients.get? i = some r
        ∧ ((∃ k, k < cfg.max_retries ∧ env.singleOk i k = true) →
            (execute_token_transfers_with_resume cfg env parse st).1.recipients.get? i
              = some { r with status := stSuccess })
        ∧ ((∀ k, k < cfg.max_retries → env.singleOk i k = false) →
            (execute_token_transfers_with_resume cfg env parse st).1.recipients.get? i
              = some { r with status := stFailed }))
    ∧ (∀ (s : ExecState) (i : ℕ), singleFieldsOk s.recipients i = true →
        ((_execute_single_transfer cfg env s i).1.sent).length
            = s.sent.length + singleAttemptCount cfg env i
        ∧ singleAttemptCount cfg env i ≤ cfg.max_retries
        ∧ ((∀ k, k < cfg.max_retries → env.singleOk i k = false) →
            singleAttemptCount cfg env i = cfg.max_retries)) := by
  constructor
  · intro t c hc hb i hi
    have hpendall : ∀ i' ∈ (chunkList cfg.batch_size
        (pendingIndices (load_progress parse cfg st).1.recipients)).flatten,
        ∃ r, (load_progress parse cfg st).1.recipients.get? i' = some r
          ∧ r.status = stPending := by
      intro i' hi'
      rw [chunkList_flatten] at hi'
      exact mem_pendingIndices.mp hi'
    have hnd : ((chunkList cfg.batch_size
        (pendingIndices (load_progress parse cfg st).1.recipients)).flatten).Nodup := by
      rw [chunkList_flatten]
      exact nodup_pendingIndices _
    have hip : i ∈ pendingIndices (load_progress parse cfg st).1.recipients := by
      rw [← chunkList_flatten cfg.batch_size
        (pendingIndices (load_progress parse cfg st).1.recipients)]
      exact List.mem_flatten.mpr ⟨c, List.get?_mem hc, hi⟩
    obtain ⟨r, hr, hrp⟩ := mem_pendingIndices.mp hip
    have hemp : (pendingIndices (load_progress parse cfg st).1.recipients).isEmpty
        = false := by
      rw [Bool.eq_false_iff]
      intro he
      rw [List.isEmpty_iff.mp he] at hip
      cases hip
    have hfok : singleFieldsOk (load_progress parse cfg st).1.recipients i = true := by
      unfold singleFieldsOk
      rw [hr]
      dsimp only
      obtain ⟨h1, h2⟩ := hfields r (List.get?_mem hr)
      rw [h1, h2]
      rfl
    have hres : (execute_token_transfers_with_resume cfg env parse st).1
        = processBatches cfg env 0 (load_progress parse cfg st).1
            (chunkList cfg.batch_size
              (pendingIndices (load_progress parse cfg st).1.recipients)) := by
      unfold execute_token_transfers_with_resume
      simp only [hemp, hdry, Bool.false_eq_true, if_false]
    have hout := processBatches_outcome cfg env _ 0
      (load_progress parse cfg st).1 hnd hpendall t c hc i hi
    rw [Nat.zero_add] at hout
    refine ⟨r, hr, ?_, ?_⟩
    · rintro ⟨k, hk, hok⟩
      have hsuc : singleSucceeds cfg env i = true := by
        unfold singleSucceeds
        rw [List.find?_isSome]
        exact ⟨k, List.mem_range.mpr hk, hok⟩
      rw [hres, hout, hr]
      have : chunkOutcome cfg env t (load_progress parse cfg st).1.recipients i
          = stSuccess := by
        unfold chunkOutcome fallbackOutcome
        rw [hb, hfok, hsuc]
        rfl
      rw [this]
      rfl
    · intro hall
      have hsuc : singleSucceeds cfg env i = false := by
        unfold singleSucceeds
        rw [List.find?_eq_none.mpr (fun k hk => by
          rw [hall k (List.mem_range.mp hk)]
          exact Bool.false_ne_true)]
        rfl
      rw [hres, hout, hr]
      have : chunkOutcome cfg env t (load_progress parse cfg st).1.recipients i
          = stFailed := by
        unfold chunkOutcome fallbackOutcome
        rw [hb, hfok, hsuc]
        rfl
      rw [this]
      rfl
  · intro s i hfok
    refine ⟨?_, ?_, ?_⟩
    · rw [_execute_single_transfer_eq]
      dsimp only
      rw [List.length_append, newSingleTxs_length hfok]
    · unfold singleAttemptCount
      cases hk : (List.range cfg.max_retries).find? (fun k => env.singleOk i k) with
      | none => exact Nat.le_refl _
      | some k =>
        have := List.mem_range.mp (List.mem_of_find?_eq_some hk)
        dsimp only
        omega
    · intro hall
      unfold singleAttemptCount
      rw [List.find?_eq_none.mpr (fun k hk => by
        rw [hall k (List.mem_range.mp hk)]
        exact Bool.false_ne_true)]

/-! ## Concrete runs used by counterexamples and witnesses -/

/-- A fully provisioned recipient used in concrete runs. -/
def wRec (w : String) (s : String) : Recipient :=
  { sol_wallet := w, worm_balance := 1, sol_nema_tokens := F64.ofDecimal 15 1,
    pubkey := some w, token_account := some ("ata" ++ w), status := s }

/-- Live-mode configuration for concrete runs. -/
def wCfg : AirdropConfig := ⟨1, false, 2, 2, 6, "MINT"⟩

/-- Dry-run configuration for concrete runs. -/
def wCfgDry : AirdropConfig := ⟨1, true, 2, 2, 6, "MINT"⟩

/-- Ledger oracle for concrete runs: the first batch succeeds, later
batches fail, and recipient 2 succeeds on its second individual attempt. -/
def wEnv : ExecEnv := ⟨fun j => j == 0, fun i k => i == 2 && k == 1⟩

/-- A checkpoint matching `wSt`: phase 1, three recipients, all pending. -/
def wData : ProgressData :=
  ⟨some 1, some 3, some 0, some 0, some 0,
    [⟨some "a", some "pending"⟩, ⟨some "b", some "pending"⟩,
      ⟨some "c", some "pending"⟩]⟩

/-- The status pairs that `wData`'s recipient entries collect into. -/
def wPairs : List (String × String) :=
  [("a", "pending"), ("b", "pending"), ("c", "pending")]

/-- Decoder returning the matching checkpoint. -/
def wParse : String → Option ProgressData := fun _ => some wData

/-- Decoder modelling an unreadable checkpoint file: `json.load` raises
before any field of the manager is assigned. -/
def wParseBad : String → Option ProgressData := fun _ => none

/-- A checkpoint with matching phase and count, a nonzero success counter,
and one malformed `recipients` entry (an element on which the dict
comprehension of line 614 raises). -/
def wDataMal : ProgressData :=
  ⟨some 1, some 1, some 7, some 0, some 0, [⟨none, none⟩]⟩

/-- Decoder returning the malformed-entries checkpoint. -/
def wParseMal : String → Option ProgressData := fun _ => some wDataMal

/-- Start state with three pending recipients and a checkpoint on disk. -/
def wSt : ExecState :=
  { recipients := [wRec "a" stPending, wRec "b" stPending, wRec "c" stPending],
    successful_transfers := 0, failed_transfers := 0, skipped_transfers := 0,
    progress_file := some "ck", sent := [], saves := [] }

/-- A checkpoint recording that the only recipient already failed. -/
def wDataFailed : ProgressData :=
  ⟨some 1, some 1, some 0, some 1, some 0, [⟨some "a", some "failed"⟩]⟩

/-- Decoder returning the all-failed checkpoint. -/
def wParseFailed : String → Option ProgressData := fun _ => some wDataFailed

/-- Start state with one pending recipient and a checkpoint on disk. -/
def wStOne : ExecState :=
  { recipients := [wRec "a" stPending],
    successful_transfers := 0, failed_transfers := 0, skipped_transfers := 0,
    progress_file := some "ck", sent := [], saves := [] }

/-- C6 counterexample: resuming after a totally failed run (the checkpoint
records the only recipient as `failed`, zero successes), the executor
reports success even though no recipient ends `success` - its early return
"all recipients have already been processed" yields `True` - contradicting
the claim that a run with zero successes is reported as executor failure. -/
theorem c6_counterexample :
    (execute_token_transfers_with_resume wCfg wEnv wParseFailed wStOne).2 = true
    ∧ countStatus stSuccess
        (execute_token_transfers_with_resume wCfg wEnv wParseFailed wStOne).1.recipients
      = 0 := by
  constructor
  · rfl
  · rfl

/-- C6 (amended): provided the restored success counter agrees with the
number of restored-`success` recipients, the executor reports success iff
at least one recipient ends `success` or no recipient was pending when
execution began (an already-complete resume reports success even with zero
successes). -/
theorem c6_amended_success_iff (cfg : AirdropConfig) (env : ExecEnv)
    (parse : String → Option ProgressData) (st : ExecState)
    (hcons : (load_progress parse cfg st).1.successful_transfers
        = (countStatus stSuccess (load_progress parse cfg st).1.recipients : ℤ)) :
    ((execute_token_transfers_with_resume cfg env parse st).2 = true
      ↔ (0 < countStatus stSuccess
            (execute_token_transfers_with_resume cfg env parse st).1.recipients
          ∨ pendingIndices (load_progress parse cfg st).1.recipients = [])) := by
  by_cases hemp :
      (pendingIndices (load_progress parse cfg st).1.recipients).isEmpty = true
  · have hres : execute_token_transfers_with_resume cfg env parse st
        = ((load_progress parse cfg st).1, true) := by
      unfold execute_token_transfers_with_resume
      simp [hemp]
    rw [hres]
    exact ⟨fun _ => Or.inr (List.isEmpty_iff.mp hemp), fun _ => rfl⟩
  · have hnil : pendingIndices (load_progress parse cfg st).1.recipients ≠ [] :=
      fun h => hemp (List.isEmpty_iff.mpr h)
    have hnd := nodup_pendingIndices (load_progress parse cfg st).1.recipients
    have hpend : ∀ i ∈ pendingIndices (load_progress parse cfg st).1.recipients,
        ∃ r, (load_progress parse cfg st).1.recipients.get? i = some r
          ∧ r.status = stPending := fun i hi => mem_pendingIndices.mp hi
    by_cases hdry : cfg.dry_run = true
    · have hres : execute_token_transfers_with_resume cfg env parse st
          = ({ (load_progress parse cfg st).1 with
                recipients := markDry (load_progress parse cfg st).1.recipients
                  (pendingIndices (load_progress parse cfg st).1.recipients),
                successful_transfers :=
                  (load_progress parse cfg st).1.successful_transfers
                  + ((pendingIndices (load_progress parse cfg st).1.recipients).length : ℤ) },
              true) := by
        unfold execute_token_transfers_with_resume
        simp [hemp, hdry]
      rw [hres]
      refine ⟨fun _ => Or.inl ?_, fun _ => rfl⟩
      have hcnt := countSuccess_setAllStatus
        (pendingIndices (load_progress parse cfg st).1.recipients)
        (load_progress parse cfg st).1.recipients hnd hpend
      have hlen : 0 < (pendingIndices (load_progress parse cfg st).1.recipients).length :=
        List.length_pos.mpr hnil
      show 0 < countStatus stSuccess (markDry _ _)
      unfold markDry
      omega
    · have hres : execute_token_transfers_with_resume cfg env parse st
          = (processBatches cfg env 0 (load_progress parse cfg st).1
              (chunkList cfg.batch_size
                (pendingIndices (load_progress parse cfg st).1.recipients)),
             decide (0 < (processBatches cfg env 0 (load_progress parse cfg st).1
              (chunkList cfg.batch_size
                (pendingIndices (load_progress parse cfg st).1.recipients))).successful_transfers)) := by
        unfold execute_token_transfers_with_resume
        simp [hemp, hdry]
      have hndf : ((chunkList cfg.batch_size
          (pendingIndices (load_progress parse cfg st).1.recipients)).flatten).Nodup := by
        rw [chunkList_flatten]
        exact hnd
      have hpendf : ∀ i ∈ (chunkList cfg.batch_size
          (pendingIndices (load_progress parse cfg st).1.recipients)).flatten,
          ∃ r, (load_progress parse cfg st).1.recipients.get? i = some r
            ∧ r.status = stPending := by
        intro i hi
        rw [chunkList_flatten] at hi
        exact hpend i hi
      have hsucc := processBatches_successful cfg env
        (chunkList cfg.batch_size
          (pendingIndices (load_progress parse cfg st).1.recipients))
        0 (load_progress parse cfg st).1 hndf hpendf
      rw [hres]
      simp only [decide_eq_true_eq]
      constructor
      · intro hpos
        exact Or.inl (by omega)
      · intro hor
        rcases hor with hpos | hn
        · omega
        · exact absurd hn hnil

/-- C7: statuses start `pending` and never revert: provisioning (whose
skip branch is unreachable for validator-produced recipients with a parsed
pubkey) leaves every status unchanged, a checkpoint save never touches
statuses, the executor leaves every recipient that is not `pending` after
the checkpoint restore exactly as it is, and once a batch prefix of the
run has given a recipient a terminal status, the remaining batches never
change it again. -/
theorem c7_terminal_statuses_stable (cfg : AirdropConfig) (env : ExecEnv)
    (parse : String → Option ProgressData) (st : ExecState) :
    (∀ (st0 : ExecState), (∀ r ∈ st0.recipients, r.pubkey.isSome = true) →
      ∀ i, (((check_and_create_token_accounts cfg st0).recipients.get? i).map
              (fun r => r.status))
        = ((st0.recipients.get? i).map (fun r => r.status)))
    ∧ (∀ (st0 : ExecState), (save_progress cfg st0).recipients = st0.recipients)
    ∧ (∀ i r, (load_progress parse cfg st).1.recipients.get? i = some r →
        r.status ≠ stPending →
        (execute_token_transfers_with_resume cfg env parse st).1.recipients.get? i
          = some r)
    ∧ (∀ (l₁ l₂ : List (List ℕ)) (i : ℕ) (r : Recipient),
        chunkList cfg.batch_size
            (pendingIndices (load_progress parse cfg st).1.recipients)
          = l₁ ++ l₂ →
        (processBatches cfg env 0 (load_progress parse cfg st).1 l₁).recipients.get? i
          = some r →
        r.status ≠ stPending →
        (processBatches cfg env l₁.length
            (processBatches cfg env 0 (load_progress parse cfg st).1 l₁)
            l₂).recipients.get? i = some r) := by
  refine ⟨?_, fun st0 => rfl, ?_, ?_⟩
  · intro st0 hpub i
    unfold check_and_create_token_accounts
    dsimp only
    rw [List.get?_map]
    cases hgi : st0.recipients.get? i with
    | none => rfl
    | some r =>
      have hmem := List.get?_mem hgi
      obtain ⟨pk, hpk⟩ := Option.isSome_iff_exists.mp (hpub r hmem)
      dsimp only [Option.map_some']
      rw [hpk]
  · intro i r hr hterm
    by_cases hemp :
        (pendingIndices (load_progress parse cfg st).1.recipients).isEmpty = true
    · have hres : execute_token_transfers_with_resume cfg env parse st
          = ((load_progress parse cfg st).1, true) := by
        unfold execute_token_transfers_with_resume
        simp [hemp]
      rw [hres]
      exact hr
    · have hnenter : i ∉ pendingIndices (load_progress parse cfg st).1.recipients := by
        intro hmem
        obtain ⟨r', hr', hrp'⟩ := mem_pendingIndices.mp hmem
        rw [hr] at hr'
        have : r = r' := by injection hr'
        exact hterm (this ▸ hrp')
      by_cases hdry : cfg.dry_run = true
      · have hres : execute_token_transfers_with_resume cfg env parse st
            = ({ (load_progress parse cfg st).1 with
                  recipients := markDry (load_progress parse cfg st).1.recipients
                    (pendingIndices (load_progress parse cfg st).1.recipients),
                  successful_transfers :=
                    (load_progress parse cfg st).1.successful_transfers
                    + ((pendingIndices (load_progress parse cfg st).1.recipients).length : ℤ) },
                true) := by
          unfold execute_token_transfers_with_resume
          simp [hemp, hdry]
        rw [hres]
        show (markDry _ _).get? i = some r
        unfold markDry
        rw [get?_setAllStatus_not_mem _ _ _ _ hnenter]
        exact hr
      · have hres : (execute_token_transfers_with_resume cfg env parse st).1
            = processBatches cfg env 0 (load_progress parse cfg st).1
                (chunkList cfg.batch_size
                  (pendingIndices (load_progress parse cfg st).1.recipients)) := by
          unfold execute_token_transfers_with_resume
          simp only [hemp, Bool.false_eq_true, if_false]
          rw [if_neg hdry]
        rw [hres]
        have hni : i ∉ (chunkList cfg.batch_size
            (pendingIndices (load_progress parse cfg st).1.recipients)).flatten := by
          rw [chunkList_flatten]
          exact hnenter
        rw [processBatches_get?_not_mem cfg env _ 0 _ i hni]
        exact hr
  · intro l₁ l₂ i r hsplit hmid hterm
    have hpend2 : ∀ i' ∈ l₂.flatten, ∃ r',
        (processBatches cfg env 0 (load_progress parse cfg st).1 l₁).recipients.get? i'
          = some r' ∧ r'.status = stPending := by
      intro i' hi'
      have hiall : i' ∈ (l₁ ++ l₂).flatten := by
        rw [List.flatten_append]
        exact List.mem_append.mpr (Or.inr hi')
      rw [← hsplit, chunkList_flatten] at hiall
      obtain ⟨r', hr', hrp'⟩ := mem_pendingIndices.mp hiall
      have hnd : ((l₁ ++ l₂).flatten).Nodup := by
        rw [← hsplit, chunkList_flatten]
        exact nodup_pendingIndices _
      rw [List.flatten_append] at hnd
      have hdisj := (List.nodup_append.mp hnd).2.2
      have hni1 : i' ∉ l₁.flatten := fun h => hdisj h hi'
      refine ⟨r', ?_, hrp'⟩
      rw [processBatches_get?_not_mem cfg env _ 0 _ i' hni1]
      exact hr'
    exact processBatches_preserves_terminal cfg env l₂ l₁.length _ hpend2 i r hmid hterm
      ▸ hmid

/-- C10: every validator-produced recipient carries a parsed pubkey (and
starts `pending`), provisioning then equips every such recipient with a
derived token account, and for recipients with both fields present the
missing-field guards are unreachable: the grouped transaction contains
exactly one transfer instruction per batch member (none silently dropped)
and the single-transfer guard passes. -/
theorem c10_guards_unreachable (cfg : AirdropConfig) :
    (∀ (v : String → Bool) (p : ℤ) (row : Row) (r : Recipient),
        _parse_recipient_row v p row = some r →
        r.pubkey = some row.sol_wallet ∧ r.status = stPending)
    ∧ (∀ (st : ExecState), (∀ r ∈ st.recipients, r.pubkey.isSome = true) →
        ∀ r' ∈ (check_and_create_token_accounts cfg st).recipients,
          r'.pubkey.isSome = true ∧ r'.token_account.isSome = true)
    ∧ (∀ (rs : List Recipient) (chunk : List ℕ),
        (∀ i ∈ chunk, singleFieldsOk rs i = true) →
        (batchIxs cfg rs chunk).length = chunk.length
        ∧ ∀ i ∈ chunk, ∃ ix ∈ batchIxs cfg rs chunk, ix.ridx = i)
    ∧ (∀ (rs : List Recipient) (i : ℕ) (r : Recipient), rs.get? i = some r →
        r.pubkey.isSome = true → r.token_account.isSome = true →
        singleFieldsOk rs i = true) := by
  refine ⟨?_, ?_, ?_, ?_⟩
  · intro v p row r h
    unfold _parse_recipient_row at h
    cases hw : row.worm_balance with
    | none => rw [hw] at h; cases h
    | some wb =>
      rw [hw] at h
      dsimp only at h
      cases ht : row.phase_tokens p with
      | none => rw [ht] at h; cases h
      | some nk =>
        rw [ht] at h
        dsimp only at h
        by_cases hv : v row.sol_wallet = true
        · rw [if_pos hv] at h
          by_cases hz : (F64.ofDecimal nk.1 nk.2).m ≤ 0
          · rw [if_pos hz] at h; cases h
          · rw [if_neg hz] at h
            have hre := h
            injection hre with hre
            rw [← hre]
            exact ⟨rfl, rfl⟩
        · rw [if_neg (fun hb => hv hb)] at h
          cases h
  · intro st hpub r' hr'
    unfold check_and_create_token_accounts at hr'
    dsimp only at hr'
    obtain ⟨r, hmem, hf⟩ := List.mem_map.mp hr'
    obtain ⟨pk, hpk⟩ := Option.isSome_iff_exists.mp (hpub r hmem)
    rw [hpk] at hf
    dsimp only at hf
    rw [← hf]
    exact ⟨rfl, rfl⟩
  · intro rs chunk h
    exact batchIxs_complete cfg chunk rs h
  · intro rs i r hr h1 h2
    unfold singleFieldsOk
    rw [hr]
    dsimp only
    rw [h1, h2]
    rfl

/-- A CSV row whose allocation cell reads `2.000002`. -/
def wRow5 : Row := ⟨"w5", some 1, fun _ => some (2000002, 6)⟩

/-- C5 counterexample: a recipient parsed from the allocation `2.000002`
with `tokenDecimals = 6` gets raw quantity `2000001` from the source's
binary64 arithmetic, while the claimed exact conversion
`allocationAmount × 10^6` truncated toward zero gives `2000002`: the
binary64 product of the stored amount rounds below the exact product, so
the raw quantity is not always the truncation of the exact product. -/
theorem c5_counterexample :
    ((_parse_recipient_row (fun _ => true) 1 wRow5).map
        (fun r => token_amount_raw r.sol_nema_tokens 6)) = some 2000001
    ∧ specRawUnits 2000002 6 6 = 2000002
    ∧ (2000001 : ℤ) ≠ 2000002 := by
  refine ⟨rfl, rfl, by decide⟩

/-- C5 (amended): every transfer instruction's raw quantity is the
binary64 product of the stored amount and `10 ^ tokenDecimals` truncated
toward zero - truncation, never rounding, at the final conversion - which
can differ by one unit from the exact product for amounts the binary64
arithmetic does not represent exactly; on the claim's instance they agree:
`1.2345675` with 6 decimals converts to `1234567` (as the exact-product
truncation also gives), not the `1234568` that rounding would give. -/
theorem c5_amended_truncating_conversion (cfg : AirdropConfig) :
    (∀ (rs : List Recipient) (chunk : List ℕ) (ix : TransferIx),
        ix ∈ batchIxs cfg rs chunk →
        ∃ r, rs.get? ix.ridx = some r
          ∧ ix.amount = token_amount_raw r.sol_nema_tokens cfg.token_decimals)
    ∧ token_amount_raw (F64.ofDecimal 12345675 7) 6 = 1234567
    ∧ specRawUnits 12345675 7 6 = 1234567
    ∧ ((F64.ofDecimal 12345675 7).mulPow10 6).roundInt = 1234568 := by
  refine ⟨?_, by decide, by decide, by decide⟩
  intro rs chunk ix hix
  obtain ⟨-, r, ta, hr, -, hbuild⟩ := batchIxs_mem hix
  exact ⟨r, hr, by rw [hbuild]; rfl⟩

/-- Empty start state with no checkpoint file on disk. -/
def wStEmpty : ExecState :=
  { recipients := [], successful_transfers := 0, failed_transfers := 0,
    skipped_transfers := 0, progress_file := none, sent := [], saves := [] }

set_option maxRecDepth 10000 in
/-- C8 counterexample: while `save_progress` runs, the truncated empty file
is a visible on-disk state (the source opens the file with mode `w` and
then streams the JSON into it); that state is neither the prior content
(the file was absent) nor the full snapshot, so a save interrupted
mid-write leaves a partially-written checkpoint visible, contrary to the
claimed atomicity. -/
theorem c8_counterexample :
    some [] ∈ save_progress_writeStates wCfg wStEmpty
    ∧ some ([] : List Char) ≠ (wStEmpty.progress_file).map String.data
    ∧ some ([] : List Char) ≠ some ((serializeProgress wCfg wStEmpty).data) := by
  refine ⟨?_, by decide, by decide⟩
  exact List.mem_map.mpr ⟨0, List.mem_range.mpr (Nat.succ_pos _), rfl⟩

/-- C8 (amended): every save writes the full snapshot - phase, recipient
count, the three counters and every recipient's status - replacing any
prior file content, and the complete snapshot is the final visible state;
but the write is not atomic: the visible on-disk states during the write
are exactly the prefixes of the new content (starting from the truncated
empty file), and a save interrupted mid-write leaves such a prefix behind,
which a subsequent load treats as corrupt and ignores. -/
theorem c8_amended_save_replaces_not_atomic (cfg : AirdropConfig)
    (st : ExecState) :
    (save_progress cfg st).progress_file = some (serializeProgress cfg st)
    ∧ (save_progress cfg st).recipients = st.recipients
    ∧ (save_progress cfg st).saves = st.saves ++ [serializeProgress cfg st]
    ∧ some ((serializeProgress cfg st).data) ∈ save_progress_writeStates cfg st
    ∧ ∀ o ∈ save_progress_writeStates cfg st,
        ∃ k, k ≤ (serializeProgress cfg st).data.length
          ∧ o = some ((serializeProgress cfg st).data.take k) := by
  refine ⟨rfl, rfl, rfl, ?_, ?_⟩
  · exact List.mem_map.mpr ⟨(serializeProgress cfg st).data.length,
      List.mem_range.mpr (Nat.lt_succ_self _),
      by rw [List.take_length]⟩
  · intro o ho
    obtain ⟨k, hk, hko⟩ := List.mem_map.mp ho
    exact ⟨k, Nat.lt_succ_iff.mp (List.mem_range.mp hk), hko.symm⟩

/-- A CSV row with a syntactically valid address and allocation `0`. -/
def wRow9 : Row := ⟨"w9", some 7, fun _ => some (0, 0)⟩

/-- C9 counterexample: an input whose only row has a non-positive
allocation makes `load_recipients` return `False` - the run aborts, so
input errors are not "never fatal" - and the excluded row is not counted
anywhere: the skipped counter stays 0 instead of recording the row. -/
theorem c9_counterexample :
    (load_recipients (fun _ => true) 1 [wRow9] wStEmpty).2 = false
    ∧ (load_recipients (fun _ => true) 1 [wRow9] wStEmpty).1.skipped_transfers = 0
    ∧ (load_recipients (fun _ => true) 1 [wRow9] wStEmpty).1.recipients = [] := by
  exact ⟨rfl, rfl, rfl⟩

/-- C9 (amended): a row with a malformed address or a non-positive
allocation is excluded from the loaded recipient list and does not abort
the parsing of the other rows, but it is not counted as skipped (the
skipped counter is untouched by loading), and the loading step succeeds
iff at least one row is valid: an input with no valid rows makes
`load_recipients` report failure, which aborts the run. -/
theorem c9_amended_invalid_rows_excluded (validAddr : String → Bool)
    (phase : ℤ) (rows : List Row) (st : ExecState) :
    (load_recipients validAddr phase rows st).1.recipients
        = rows.filterMap (_parse_recipient_row validAddr phase)
    ∧ ((load_recipients validAddr phase rows st).2 = true
        ↔ rows.filterMap (_parse_recipient_row validAddr phase) ≠ [])
    ∧ (load_recipients validAddr phase rows st).1.skipped_transfers
        = st.skipped_transfers
    ∧ (load_recipients validAddr phase rows st).1.successful_transfers
        = st.successful_transfers
    ∧ (∀ row, validAddr row.sol_wallet = false →
        _parse_recipient_row validAddr phase row = none)
    ∧ (∀ row n k, row.phase_tokens phase = some (n, k) →
        (F64.ofDecimal n k).m ≤ 0 →
        _parse_recipient_row validAddr phase row = none) := by
  refine ⟨rfl, ?_, rfl, rfl, ?_, ?_⟩
  · unfold load_recipients
    dsimp only
    rw [decide_eq_true_eq]
    constructor
    · intro h he
      rw [he] at h
      cases h
    · intro hne
      exact List.length_pos.mpr hne
  · intro row hv
    unfold _parse_recipient_row
    cases hw : row.worm_balance with
    | none => rfl
    | some wb =>
      dsimp only
      cases ht : row.phase_tokens phase with
      | none => rfl
      | some nk =>
        dsimp only
        rw [if_neg (fun hb => by rw [hv] at hb; cases hb)]
  · intro row n k ht hz
    unfold _parse_recipient_row
    cases hw : row.worm_balance with
    | none => rfl
    | some wb =>
      dsimp only
      rw [ht]
      dsimp only
      by_cases hv : validAddr row.sol_wallet = true
      · rw [if_pos hv, if_pos hz]
      · rw [if_neg hv]

/-! ## Witnesses: the claim theorems applied to concrete runs -/

/-- Witness for C1 at a concrete matching resume. -/
theorem c1_witness :
    get_pending_recipients (load_progress wParse wCfg wSt).1.recipients
      = (load_progress wParse wCfg wSt).1.recipients.filter
          (fun r => r.status == stPending) :=
  (c1_resume_pending_working_set wCfg wEnv wParse wSt "ck" wData
    rfl rfl rfl rfl).1

/-- C2 counterexample: a checkpoint whose phase and recipient count match
the current run but whose `recipients` list holds one malformed entry
makes `load_progress` restore the three counters (here: a success counter
of 7 onto a fresh run) while touching no status and returning `False` -
contradicting the claim that on any parse error while reading the file no
counter is restored. -/
theorem c2_counterexample :
    wDataMal.phase = some wCfg.phase
    ∧ wDataMal.total_recipients = some (wStOne.recipients.length : ℤ)
    ∧ wStOne.successful_transfers = 0
    ∧ (load_progress wParseMal wCfg wStOne).1.successful_transfers = 7
    ∧ (load_progress wParseMal wCfg wStOne).1.recipients = wStOne.recipients
    ∧ (load_progress wParseMal wCfg wStOne).2 = false :=
  ⟨rfl, rfl, rfl, rfl, rfl, rfl⟩

/-- Witness for the amended C2: a matching well-formed checkpoint restores
fully with `True`, a matching checkpoint with a malformed entry restores
only the counters with `False`, and an unreadable one is ignored. -/
theorem c2_witness :
    load_progress wParse wCfg wSt
      = ({ wSt with
            successful_transfers := wData.successful_transfers.getD 0,
            failed_transfers := wData.failed_transfers.getD 0,
            skipped_transfers := wData.skipped_transfers.getD 0,
            recipients := wSt.recipients.map (restoreStatus wPairs) }, true)
    ∧ load_progress wParseMal wCfg wStOne
      = ({ wStOne with
            successful_transfers := wDataMal.successful_transfers.getD 0,
            failed_transfers := wDataMal.failed_transfers.getD 0,
            skipped_transfers := wDataMal.skipped_transfers.getD 0 }, false)
    ∧ load_progress wParseBad wCfg wSt = (wSt, false) := by
  refine ⟨?_, ?_, ?_⟩
  · exact (c2_amended_checkpoint_restore_gate wParse wCfg wSt).1 "ck" wData
      wPairs rfl rfl rfl rfl rfl
  · exact (c2_amended_checkpoint_restore_gate wParseMal wCfg wStOne).2.1 "ck"
      wDataMal rfl rfl rfl rfl rfl
  · exact ((c2_amended_checkpoint_restore_gate wParseBad wCfg wSt).2.2
      (Or.inr ⟨"ck", rfl, Or.inl rfl⟩)).1

/-- Witness for C3 at a concrete dry run. -/
theorem c3_witness :
    (execute_token_transfers_with_resume wCfgDry wEnv wParse wSt).2 = true
    ∧ (execute_token_transfers_with_resume wCfgDry wEnv wParse wSt).1.saves
        = wSt.saves
    ∧ (execute_token_transfers_with_resume wCfgDry wEnv wParse wSt).1.sent
        = wSt.sent := by
  have h := c3_dry_run_no_write wCfgDry wEnv wParse wSt rfl
  exact ⟨h.1, h.2.2.1, h.2.2.2.1⟩

/-- Witness for C4 at a concrete retry run. -/
theorem c4_witness :
    ((_execute_single_transfer wCfg wEnv wStOne 0).1.sent).length
        = wStOne.sent.length + singleAttemptCount wCfg wEnv 0
    ∧ singleAttemptCount wCfg wEnv 0 ≤ wCfg.max_retries := by
  have h := (c4_failed_batch_fallback wCfg wEnv wParse wSt rfl
    (by decide)).2 wStOne 0 (by decide)
  exact ⟨h.1, h.2.1⟩

/-- Witness for C5 (amended) at a concrete instruction. -/
theorem c5_witness :
    (buildTransferIx wCfg 0 (wRec "a" stPending) "ataa").amount
      = token_amount_raw (wRec "a" stPending).sol_nema_tokens
          wCfg.token_decimals := by
  obtain ⟨r, hr, ha⟩ := (c5_amended_truncating_conversion wCfg).1
    [wRec "a" stPending] [0]
    (buildTransferIx wCfg 0 (wRec "a" stPending) "ataa") (by decide)
  have h2 : some (wRec "a" stPending) = some r := by
    rw [← hr]
    rfl
  have h3 : wRec "a" stPending = r := by injection h2
  rw [ha, ← h3]

/-- Witness for C6 (amended) at a concrete consistent resume. -/
theorem c6_witness :
    ((execute_token_transfers_with_resume wCfg wEnv wParse wSt).2 = true
      ↔ (0 < countStatus stSuccess
            (execute_token_transfers_with_resume wCfg wEnv wParse wSt).1.recipients
          ∨ pendingIndices (load_progress wParse wCfg wSt).1.recipients = [])) :=
  c6_amended_success_iff wCfg wEnv wParse wSt (by decide)

/-- Witness for C7: a restored terminal status survives the executor. -/
theorem c7_witness :
    (execute_token_transfers_with_resume wCfg wEnv wParseFailed wStOne).1.recipients.get? 0
      = some (wRec "a" stFailed) :=
  (c7_terminal_statuses_stable wCfg wEnv wParseFailed wStOne).2.2.1 0
    (wRec "a" stFailed) (by decide) (by decide)

set_option maxRecDepth 10000 in
/-- Witness for C8 (amended) at a concrete save. -/
theorem c8_witness :
    (save_progress wCfg wStEmpty).progress_file
        = some (serializeProgress wCfg wStEmpty)
    ∧ ∃ k, k ≤ (serializeProgress wCfg wStEmpty).data.length
        ∧ some ((serializeProgress wCfg wStEmpty).data.take 0)
          = some ((serializeProgress wCfg wStEmpty).data.take k) := by
  have h := c8_amended_save_replaces_not_atomic wCfg wStEmpty
  exact ⟨h.1, h.2.2.2.2 (some ((serializeProgress wCfg wStEmpty).data.take 0))
    (List.mem_map.mpr ⟨0, List.mem_range.mpr (Nat.succ_pos _), rfl⟩)⟩

/-- Witness for C9 (amended) at a concrete invalid-only input. -/
theorem c9_witness :
    ((load_recipients (fun _ => true) 1 [wRow9] wStEmpty).2 = true
      ↔ [wRow9].filterMap (_parse_recipient_row (fun _ => true) 1) ≠ []) :=
  (c9_amended_invalid_rows_excluded (fun _ => true) 1 [wRow9] wStEmpty).2.1

/-- Witness for C10 at a concrete provisioned recipient. -/
theorem c10_witness :
    (batchIxs wCfg [wRec "a" stPending] [0]).length = ([0] : List ℕ).length
    ∧ singleFieldsOk [wRec "a" stPending] 0 = true := by
  have h := c10_guards_unreachable wCfg
  refine ⟨(h.2.2.1 [wRec "a" stPending] [0] ?_).1,
    h.2.2.2 [wRec "a" stPending] 0 (wRec "a" stPending) rfl rfl rfl⟩
  intro i hi
  have hie : i = 0 := by simpa using hi
  subst hie
  exact h.2.2.2 [wRec "a" stPending] 0 (wRec "a" stPending) rfl rfl rfl
